import Mathlib

/-!
Verification of the electricity-usage reconciliation pipeline (src/main.js).

The development shallowly embeds the pipeline's pure core: timestamp
resolution from civil date/time strings in the fixed `America/Los_Angeles`
zone, CSV row parsing, merge-by-recency deduplication, 15-minute gap filling,
hourly/daily aggregation, civil-date range filtering, and the rolling
average.  Machine reals (JS floats) are modelled as rationals; epoch
instants are integers in milliseconds.  Host-environment services consumed
by the code (ECMAScript `Date.UTC` calendar arithmetic, the IANA time-zone
database behind `Intl.DateTimeFormat`) are modelled explicitly below and
documented as such.
-/

namespace ElecUsage

/-! ### Calendar arithmetic (models ECMAScript `Date` and the host tz data)

All divisions use `Int.ediv`/`Int.emod`; every divisor below is positive,
for which Euclidean division coincides with the floor division these
calendar algorithms are stated with. -/

def msPerDay : Int := 86400000

def msPerHour : Int := 3600000

def msPerMinute : Int := 60000

/-- Days since 1970-01-01 of a civil date (proleptic Gregorian), the
day-numbering used by ECMAScript `MakeDay`. -/
def daysFromCivil (y m d : Int) : Int :=
  let y2 := y - (if m ≤ 2 then 1 else 0)
  let era := Int.ediv y2 400
  let yoe := y2 - era * 400
  let mp := Int.emod (m + 9) 12
  let doy := Int.ediv (153 * mp + 2) 5 + d - 1
  let doe := yoe * 365 + Int.ediv yoe 4 - Int.ediv yoe 100 + doy
  era * 146097 + doe - 719468

/-- Civil date of an epoch day number; inverse of `daysFromCivil`. -/
def civilFromDays (z0 : Int) : Int × Int × Int :=
  let z := z0 + 719468
  let era := Int.ediv z 146097
  let doe := z - era * 146097
  let yoe := Int.ediv (doe - Int.ediv doe 1460 + Int.ediv doe 36524 - Int.ediv doe 146096) 365
  let y := yoe + era * 400
  let doy := doe - (365 * yoe + Int.ediv yoe 4 - Int.ediv yoe 100)
  let mp := Int.ediv (5 * doy + 2) 153
  let d := doy - Int.ediv (153 * mp + 2) 5 + 1
  let m := mp + (if mp < 10 then 3 else -9)
  (y + (if m ≤ 2 then 1 else 0), m, d)

/-- Civil field decomposition of an instant (epoch milliseconds), as a UTC
clock reading. -/
structure CivilDateTime where
  year : Int
  month : Int
  day : Int
  hour : Int
  minute : Int
  second : Int
deriving DecidableEq, Repr

def civilOfMs (t : Int) : CivilDateTime :=
  let days := Int.ediv t msPerDay
  let ms := t - days * msPerDay
  let ymd := civilFromDays days
  { year := ymd.1, month := ymd.2.1, day := ymd.2.2,
    hour := Int.ediv ms msPerHour,
    minute := Int.ediv (Int.emod ms msPerHour) msPerMinute,
    second := Int.ediv (Int.emod ms msPerMinute) 1000 }

/-- Models `Date.UTC(year, monthIndex, day, hour, minute, second, 0)` on
finite (non-NaN) arguments: out-of-range fields roll over by calendar
arithmetic exactly as `MakeDay`/`MakeTime` prescribe, and years 0–99 are
read as 1900+year.  `TimeClip`'s ±8.64e15 overflow check is not modelled;
no instant in this development approaches it. -/
def jsDateUTC (year monthIndex day hour minute second : Int) : Int :=
  let y := if 0 ≤ year ∧ year ≤ 99 then 1900 + year else year
  let ym := y + Int.ediv monthIndex 12
  let m := Int.emod monthIndex 12 + 1
  (daysFromCivil ym m 1 + (day - 1)) * msPerDay
    + hour * msPerHour + minute * msPerMinute + second * 1000

/-- Epoch day number of the first Sunday on or after epoch day `z`
(1970-01-01 was a Thursday; Sundays are the days `z ≡ 3 [ZMOD 7]`). -/
def firstSundayOnOrAfter (z : Int) : Int := z + Int.emod (3 - z) 7

/-- Modelled from the host environment's IANA time-zone data for
`America/Los_Angeles` (the pipeline's fixed zone): instant at which
daylight-saving time begins in year `y` — second Sunday of March, 02:00
standard time = 10:00 UTC — under the United States rule in force since
2007.  The rule is applied uniformly to every year; every instant that
appears in this development lies in the rule's validity range. -/
def dstStartMs (y : Int) : Int :=
  (firstSundayOnOrAfter (daysFromCivil y 3 1) + 7) * msPerDay + 10 * msPerHour

/-- Instant at which daylight-saving time ends in year `y` — first Sunday of
November, 02:00 daylight time = 09:00 UTC (same modelling note as
`dstStartMs`). -/
def dstEndMs (y : Int) : Int :=
  firstSundayOnOrAfter (daysFromCivil y 11 1) * msPerDay + 9 * msPerHour

/-- UTC offset of `America/Los_Angeles` in minutes at instant `t`:
-420 during daylight-saving time, -480 otherwise. -/
def laOffsetMinutes (t : Int) : Int :=
  let y := (civilFromDays (Int.ediv t msPerDay)).1
  if dstStartMs y ≤ t ∧ t < dstEndMs y then -420 else -480

/-- `Intl.DateTimeFormat(..., { timeZone: "America/Los_Angeles", hour12:
false }).formatToParts(t)` as consumed by `tzOffset`: the civil fields of
the instant shifted into the fixed zone.  Modern engines resolve
`hour12: false` to the h23 hour cycle, so midnight reads as hour 0. -/
def formatToPartsLA (t : Int) : CivilDateTime :=
  civilOfMs (t + laOffsetMinutes t * msPerMinute)

/-- `tzOffset(date, timeZone)` from src/main.js lines 88–106: format the
instant into the zone, recombine the parts with `Date.UTC`, divide the
difference by 60000.  Every caller passes a minute-aligned instant, for
which the difference is an exact multiple of 60000, so the truncating
integer division below coincides with the JS float division. -/
def tzOffset (t : Int) : Int :=
  let p := formatToPartsLA t
  Int.tdiv (jsDateUTC p.year (p.month - 1) p.day p.hour p.minute p.second - t) msPerMinute

/-! ### JS string-to-number primitives -/

/-- Whitespace recognized when modelling JS numeric-string trimming. -/
def isWs (c : Char) : Bool := c == ' ' || c == '\t' || c == '\n' || c == '\r'

/-- Digit-string value, most significant first. -/
def digitsToNat : List Char → Nat → Nat
  | [], acc => acc
  | c :: cs, acc => digitsToNat cs (acc * 10 + (c.toNat - 48))

/-- Splits a string at every occurrence of a one-character separator,
modelling `String.prototype.split` with a single-character argument
(`"".split(sep)` is `[""]`, and separators at the ends yield empty pieces). -/
def splitChar (sep : Char) : List Char → List (List Char)
  | [] => [[]]
  | c :: rest =>
    let r := splitChar sep rest
    if c = sep then [] :: r
    else
      match r with
      | [] => [[c]]
      | g :: gs => (c :: g) :: gs

def jsSplit (s : String) (sep : Char) : List String :=
  (splitChar sep s.data).map String.mk

/-- Models `ToIntegerOrInfinity(Number(s))`, the conversion `Date.UTC`
applies to each argument: whitespace is trimmed, the empty string is 0, a
signed decimal numeral truncates toward zero, and anything else is NaN
(`none`).  Exponent/hexadecimal numerals and `Infinity` are outside the
modelled fragment and map to `none`; for `Infinity` the caller reaches the
same Invalid-Date outcome either way. -/
def jsNumberInt? (s : String) : Option Int :=
  let cs := ((s.data.dropWhile isWs).reverse.dropWhile isWs).reverse
  match cs with
  | [] => some 0
  | _ =>
    let sr : Int × List Char :=
      match cs with
      | '-' :: r => (-1, r)
      | '+' :: r => (1, r)
      | r => (1, r)
    let intPart := sr.2.takeWhile Char.isDigit
    let rest2 := sr.2.dropWhile Char.isDigit
    let ok : Bool :=
      match rest2 with
      | [] => !intPart.isEmpty
      | '.' :: fr => (!intPart.isEmpty || !fr.isEmpty) && fr.all Char.isDigit
      | _ => false
    if ok then some (sr.1 * (digitsToNat intPart 0 : Int)) else none

/-- Models `Number.parseFloat`: skip leading whitespace, then read the
longest signed decimal numeral prefix (optional fraction and exponent);
`none` models NaN (no numeral prefix).  An `Infinity` prefix, which
`parseFloat` maps to an infinite value, is also `none` here: the only
caller guards with `Number.isFinite` and coerces every non-finite result
to 0, exactly as it does NaN.  The value sign·(I.F)·10^e is assembled as a
single fraction with integer arithmetic. -/
def jsParseFloatQ? (s : String) : Option ℚ :=
  let cs := s.data.dropWhile isWs
  let sr : Int × List Char :=
    match cs with
    | '-' :: r => (-1, r)
    | '+' :: r => (1, r)
    | r => (1, r)
  let ip := sr.2.takeWhile Char.isDigit
  let r2 := sr.2.dropWhile Char.isDigit
  let fpr : List Char × List Char :=
    match r2 with
    | '.' :: fr => (fr.takeWhile Char.isDigit, fr.dropWhile Char.isDigit)
    | _ => ([], r2)
  if ip = [] ∧ fpr.1 = [] then none
  else
    let expo : Int :=
      match fpr.2 with
      | 'e' :: er | 'E' :: er =>
        let esr : Int × List Char :=
          match er with
          | '-' :: r => (-1, r)
          | '+' :: r => (1, r)
          | r => (1, r)
        let ed := esr.2.takeWhile Char.isDigit
        if ed = [] then 0 else esr.1 * (digitsToNat ed 0 : Int)
      | _ => 0
    let mantNum : Int :=
      (digitsToNat ip 0 : Int) * ((10 : Nat) ^ fpr.1.length : Nat) + (digitsToNat fpr.1 0 : Int)
    let num : Int := sr.1 * mantNum * (if 0 ≤ expo then ((10 : Nat) ^ expo.toNat : Nat) else 1)
    let den : Nat := (10 : Nat) ^ fpr.1.length * (if 0 ≤ expo then 1 else (10 : Nat) ^ (-expo).toNat)
    some (mkRat num den)

/-! ### Timestamp resolution and zone formatting -/

/-- The exception surfaced during timestamp resolution: `formatToParts`
raises `RangeError` when handed an Invalid Date, i.e. when any `Date.UTC`
argument was NaN. -/
inductive JsRangeError where
  | invalidTime
deriving DecidableEq, Repr

instance {ε α : Type} [DecidableEq ε] [DecidableEq α] : DecidableEq (Except ε α) := fun
  | .ok a, .ok b =>
    match decEq a b with
    | isTrue h => isTrue (by rw [h])
    | isFalse h => isFalse (fun hh => h (Except.ok.inj hh))
  | .error a, .error b =>
    match decEq a b with
    | isTrue h => isTrue (by rw [h])
    | isFalse h => isFalse (fun hh => h (Except.error.inj hh))
  | .ok _, .error _ => isFalse (fun hh => Except.noConfusion hh)
  | .error _, .ok _ => isFalse (fun hh => Except.noConfusion hh)

/-- `zonedDateTimeToDate(dateStr, timeStr)` from src/main.js lines 108–114:
split the civil fields, build a naive UTC guess with `Date.UTC`, measure the
zone offset at the guess, subtract it.  A missing component destructures to
`undefined` and `Number(undefined)` is NaN. -/
def zonedDateTimeToDate (dateStr timeStr : String) : Except JsRangeError Int :=
  let dparts := jsSplit dateStr '-'
  let tparts := jsSplit timeStr ':'
  let year := (dparts.get? 0).bind jsNumberInt?
  let month := (dparts.get? 1).bind jsNumberInt?
  let day := (dparts.get? 2).bind jsNumberInt?
  let hour := (tparts.get? 0).bind jsNumberInt?
  let minute := (tparts.get? 1).bind jsNumberInt?
  match year, month, day, hour, minute with
  | some y, some mo, some d, some h, some mi =>
    let base := jsDateUTC y (mo - 1) d h mi 0
    .ok (base - tzOffset base * msPerMinute)
  | _, _, _, _, _ => .error .invalidTime

def pad2 (n : Int) : String := if n < 10 then "0" ++ toString n else toString n

/-- `formatDateInZone` (the en-CA `dateFormatter`): `YYYY-MM-DD` of the
instant in the fixed zone. -/
def formatDateInZone (t : Int) : String :=
  let p := formatToPartsLA t
  toString p.year ++ "-" ++ pad2 p.month ++ "-" ++ pad2 p.day

/-- `formatTimeInZone` (the en-GB 24-hour `timeFormatter`): `HH:MM` of the
instant in the fixed zone. -/
def formatTimeInZone (t : Int) : String :=
  let p := formatToPartsLA t
  pad2 p.hour ++ ":" ++ pad2 p.minute

/-! ### Data model -/

/-- The atomic usage record produced by the row parser and the gap filler.
`importKWh` (a JS float in the source) is modelled as a rational. -/
structure UsageRecord where
  timestamp : Int
  date : String
  startTime : String
  importKWh : ℚ
  source : String
  synthetic : Bool
deriving DecidableEq, Repr, Inhabited

/-- One row-object handed over by the CSV library (spec §6 collaborator):
a field is `none` when the column is absent from the row (JS `undefined`). -/
structure CsvRow where
  dateField : Option String
  startTimeField : Option String
  importField : Option String
deriving DecidableEq, Repr

/-- One hourly/daily aggregation bucket. -/
structure AggregateBucket where
  timestamp : Int
  date : String
  startTime : String
  importKWh : ℚ
  sampleCount : Nat
deriving DecidableEq, Repr

/-- `aggregate` returns the record list itself for `"15min"` and bucket
lists otherwise; the two arms of this sum mirror that. -/
inductive AggregateResult where
  | raw : List UsageRecord → AggregateResult
  | bucketed : List AggregateBucket → AggregateResult
deriving DecidableEq, Repr

/-- The rolling-average output point. -/
structure RollingAveragePoint where
  timestamp : Int
  avg : ℚ
deriving DecidableEq, Repr, Inhabited

/-! ### Stable sorting by an integer key

`Array.prototype.sort` with the comparator `(a, b) => a.timestamp - b.timestamp`
is a stable sort (ES2019); insertion after equal keys models it. -/

def insertByKey {α : Type} (key : α → Int) (x : α) : List α → List α
  | [] => [x]
  | y :: ys => if key y ≤ key x then y :: insertByKey key x ys else x :: y :: ys

def sortByKey {α : Type} (key : α → Int) (l : List α) : List α :=
  l.foldl (fun acc x => insertByKey key x acc) []

/-! ### Row parser -/

/-- The energy-field conversion inside the row callback:
`Number.parseFloat(row["IMPORT (kWh)"])` guarded by `Number.isFinite`,
any non-finite result coerced to 0. -/
def importValueOf (row : CsvRow) : ℚ :=
  match row.importField.bind jsParseFloatQ? with
  | some q => q
  | none => 0

/-- The row callback passed to `csvParse` (src/main.js lines 133-147):
`none` models the `null` returned for rows whose DATE or START TIME is
missing or empty (both falsy); a resolution failure propagates as the
exception. -/
def parseRow (source : String) (row : CsvRow) : Except JsRangeError (Option UsageRecord) :=
  match row.dateField, row.startTimeField with
  | some d, some st =>
    if d = "" ∨ st = "" then pure none
    else do
      let ts ← zonedDateTimeToDate d st
      pure (some { timestamp := ts, date := d, startTime := st,
                   importKWh := importValueOf row, source := source, synthetic := false })
  | _, _ => pure none

/-- `parseUsageRows(csvText, source)` (src/main.js lines 132-149) over the
already-tokenized rows (CSV lexing itself is the external library): a
throwing row aborts the whole parse, `null` rows are dropped, and the
result is sorted ascending by timestamp. -/
def parseUsageRows (rows : List CsvRow) (source : String) :
    Except JsRangeError (List UsageRecord) := do
  let parsed ← rows.mapM (parseRow source)
  pure (sortByKey UsageRecord.timestamp (parsed.filterMap id))

/-! ### Gap filler -/

def fifteenMinutes : Int := 900000

/-- The synthetic zero-usage record pushed by the gap filler's while-loop. -/
def mkSynthetic (t : Int) : UsageRecord :=
  { timestamp := t, date := formatDateInZone t, startTime := formatTimeInZone t,
    importKWh := 0, source := "synthetic-gap-fill", synthetic := true }

/-- The gap filler's inner while-loop (src/main.js lines 251-262): emit a
synthetic record at each successive 15-minute step strictly before `next`. -/
def fillBetween (expected next : Int) : List UsageRecord :=
  if expected < next then mkSynthetic expected :: fillBetween (expected + fifteenMinutes) next
  else []
termination_by (next - expected).toNat
decreasing_by
  simp only [fifteenMinutes]
  omega

/-- `fillMissingIntervals(records)` (src/main.js lines 243-265): every
record is emitted, followed by the synthetic records filling the gap to
its successor; the last record has no successor to fill toward. -/
def fillMissingIntervals : List UsageRecord → List UsageRecord
  | [] => []
  | [r] => [r]
  | r :: next :: rest =>
    r :: (fillBetween (r.timestamp + fifteenMinutes) next.timestamp
      ++ fillMissingIntervals (next :: rest))

/-! ### Aggregator -/

/-- Insertion-ordered map entries modelling the JS `Map` used by
`aggregate`. -/
abbrev BucketMap := List (String × AggregateBucket)

/-- The has/create step of one `aggregate` loop iteration (src/main.js
lines 278-286 / 292-300): if no bucket exists under `key`, resolve the
bucket instant and append a zero bucket. -/
def ensureBucket (m : BucketMap) (key : String) (mkTs : Except JsRangeError Int)
    (init : Int -> AggregateBucket) : Except JsRangeError BucketMap :=
  if m.any (fun p => p.1 = key) then pure m
  else mkTs >>= fun ts => pure (m ++ [(key, init ts)])

/-- The get/accumulate step of one `aggregate` loop iteration (src/main.js
lines 287-289 / 301-303): fold the record into the bucket stored under
`key`. -/
def addIntoBucket (m1 : BucketMap) (key : String) (r : UsageRecord) : BucketMap :=
  m1.map fun p =>
    if p.1 = key then
      (p.1, { p.2 with importKWh := p.2.importKWh + r.importKWh,
                       sampleCount := p.2.sampleCount + 1 })
    else p

/-- One loop iteration of `aggregate` (src/main.js lines 274-305): ensure
the bucket exists, then add the record into it. -/
def bucketStep (granularity : String) (m : BucketMap) (r : UsageRecord) :
    Except JsRangeError BucketMap :=
  if granularity = "hourly" then
    let hour := r.startTime.take 2
    let key := r.date ++ "T" ++ hour
    (ensureBucket m key (zonedDateTimeToDate r.date (hour ++ ":00"))
      (fun ts => { timestamp := ts, date := r.date, startTime := hour ++ ":00",
                   importKWh := 0, sampleCount := 0 })) >>= fun m1 =>
      pure (addIntoBucket m1 key r)
  else if granularity = "daily" then
    let key := r.date
    (ensureBucket m key (zonedDateTimeToDate r.date "00:00")
      (fun ts => { timestamp := ts, date := r.date, startTime := "00:00",
                   importKWh := 0, sampleCount := 0 })) >>= fun m1 =>
      pure (addIntoBucket m1 key r)
  else pure m

/-- `aggregate(records, granularity)` (src/main.js lines 267-310):
`"15min"` returns a copy of the input; otherwise fold the records into the
bucket map and return its values sorted ascending by bucket instant. -/
def aggregate (records : List UsageRecord) (granularity : String) :
    Except JsRangeError AggregateResult :=
  if granularity = "15min" then .ok (.raw records)
  else do
    let m ← records.foldlM (bucketStep granularity) []
    pure (.bucketed (sortByKey AggregateBucket.timestamp (m.map Prod.snd)))

/-! ### Range filter -/

/-- JS falsiness of an optional bound string (`null`/`undefined`/`""`). -/
def strFalsy : Option String → Bool
  | none => true
  | some s => s = ""

/-- `filterByRange(records, startStr, endStr)` (src/main.js lines 312-328):
keep records at or after local midnight of the start date and strictly
before local midnight of the end date plus 86,400,000 ms. -/
def filterByRange (records : List UsageRecord) (startStr endStr : Option String) :
    Except JsRangeError (List UsageRecord) :=
  if records.length = 0 then pure records
  else if strFalsy startStr && strFalsy endStr then pure records
  else do
    let startDate : Option Int ←
      match startStr with
      | some s => if s = "" then pure none else do pure (some (← zonedDateTimeToDate s "00:00"))
      | none => pure none
    let endDateExclusive : Option Int ←
      match endStr with
      | some s =>
        if s = "" then pure none
        else do pure (some ((← zonedDateTimeToDate s "00:00") + msPerDay))
      | none => pure none
    pure (records.filter fun r =>
      (match startDate with
       | some sd => decide (sd ≤ r.timestamp)
       | none => true) &&
      (match endDateExclusive with
       | some ed => decide (r.timestamp < ed)
       | none => true))

/-! ### Merger -/

/-- `recordsByTimestamp.set(record.timestamp.getTime(), record)` on the
insertion-ordered JS `Map`: overwrite in place when the key exists,
append otherwise. -/
def upsertByTimestamp (m : List (Int × UsageRecord)) (r : UsageRecord) :
    List (Int × UsageRecord) :=
  if m.any (fun p => p.1 = r.timestamp) then
    m.map fun p => if p.1 = r.timestamp then (p.1, r) else p
  else m ++ [(r.timestamp, r)]

/-- The merge step of `loadUsageData` (src/main.js lines 652-667): visit
every source series in caller-supplied order, keep the last record written
at each instant, and sort the surviving records ascending by timestamp. -/
def mergeSeries (seriesList : List (List UsageRecord)) : List UsageRecord :=
  sortByKey UsageRecord.timestamp
    ((seriesList.flatten.foldl upsertByTimestamp []).map Prod.snd)

/-! ### Rolling average -/

/-- The indexed loop of `computeRollingAverage` (src/main.js lines 204-215),
carrying the running `windowSum`. -/
def rollLoop (records : List UsageRecord) (windowSize : Nat) (i : Nat) (windowSum : ℚ) :
    List RollingAveragePoint :=
  if h : i < records.length then
    let s1 := windowSum + (records.get ⟨i, h⟩).importKWh
    let s2 := if windowSize ≤ i then s1 - (records.getD (i - windowSize) default).importKWh
              else s1
    let rest := rollLoop records windowSize (i + 1) s2
    if windowSize - 1 ≤ i then
      { timestamp := (records.get ⟨i, h⟩).timestamp, avg := s2 / (windowSize : ℚ) } :: rest
    else rest
  else []
termination_by records.length - i

/-- `computeRollingAverage(records, windowSize)` (src/main.js lines 200-217). -/
def computeRollingAverage (records : List UsageRecord) (windowSize : Nat) :
    List RollingAveragePoint :=
  if records.length = 0 ∨ windowSize ≤ 1 then [] else rollLoop records windowSize 0 0

/-- Total imported energy of a record series. -/
def sumKWh (l : List UsageRecord) : ℚ := (l.map UsageRecord.importKWh).sum

/-- Total imported energy of a bucket list. -/
def sumBWh (l : List AggregateBucket) : ℚ := (l.map AggregateBucket.importKWh).sum

/-! ### Lemmas about the stable sort -/

theorem insertByKey_perm {α : Type} (key : α → Int) (x : α) (l : List α) :
    List.Perm (insertByKey key x l) (x :: l) := by
  induction l with
  | nil => simp [insertByKey]
  | cons y ys ih =>
    rw [insertByKey]
    by_cases h : key y ≤ key x
    · rw [if_pos h]
      exact (ih.cons y).trans (List.Perm.swap x y ys)
    · rw [if_neg h]

theorem sortByKey_perm_aux {α : Type} (key : α → Int) (l acc : List α) :
    List.Perm (l.foldl (fun a x => insertByKey key x a) acc) (l ++ acc) := by
  induction l generalizing acc with
  | nil => simp
  | cons x xs ih =>
    simp only [List.foldl_cons, List.cons_append]
    exact (ih (insertByKey key x acc)).trans
      ((List.Perm.append_left xs (insertByKey_perm key x acc)).trans List.perm_middle)

theorem sortByKey_perm {α : Type} (key : α → Int) (l : List α) :
    List.Perm (sortByKey key l) l := by
  simpa using sortByKey_perm_aux key l []

theorem insertByKey_pairwise {α : Type} (key : α → Int) (x : α) (l : List α)
    (h : l.Pairwise (fun a b => key a ≤ key b)) :
    (insertByKey key x l).Pairwise (fun a b => key a ≤ key b) := by
  induction l with
  | nil => simp [insertByKey]
  | cons y ys ih =>
    rw [insertByKey]
    rcases List.pairwise_cons.mp h with ⟨hy, hys⟩
    by_cases hle : key y ≤ key x
    · rw [if_pos hle]
      refine List.pairwise_cons.mpr ⟨?_, ih hys⟩
      intro z hz
      rcases List.mem_cons.mp ((insertByKey_perm key x ys).mem_iff.mp hz) with rfl | hmem
      · exact hle
      · exact hy z hmem
    · rw [if_neg hle]
      refine List.pairwise_cons.mpr ⟨?_, h⟩
      intro z hz
      rcases List.mem_cons.mp hz with rfl | hmem
      · exact le_of_not_le hle
      · exact le_trans (le_of_not_le hle) (hy z hmem)

theorem sortByKey_pairwise_aux {α : Type} (key : α → Int) (l acc : List α)
    (hacc : acc.Pairwise (fun a b => key a ≤ key b)) :
    (l.foldl (fun a x => insertByKey key x a) acc).Pairwise (fun a b => key a ≤ key b) := by
  induction l generalizing acc with
  | nil => exact hacc
  | cons x xs ih =>
    simp only [List.foldl_cons]
    exact ih _ (insertByKey_pairwise key x acc hacc)

theorem sortByKey_pairwise {α : Type} (key : α → Int) (l : List α) :
    (sortByKey key l).Pairwise (fun a b => key a ≤ key b) :=
  sortByKey_pairwise_aux key l [] (by simp)

theorem pairwise_lt_of_le_nodup {α : Type} (key : α → Int) (l : List α)
    (h1 : l.Pairwise (fun a b => key a ≤ key b)) (h2 : (l.map key).Nodup) :
    l.Pairwise (fun a b => key a < key b) := by
  induction l with
  | nil => simp
  | cons x xs ih =>
    rcases List.pairwise_cons.mp h1 with ⟨hx, hxs⟩
    simp only [List.map_cons, List.nodup_cons] at h2
    refine List.pairwise_cons.mpr ⟨?_, ih hxs h2.2⟩
    intro z hz
    refine lt_of_le_of_ne (hx z hz) fun he => h2.1 ?_
    rw [he]
    exact List.mem_map_of_mem key hz

/-! ### Lemmas about the merge map -/

/-- Invariant of the merge map: keys are distinct and every entry's record
carries its key as timestamp. -/
def tsKeysOk (m : List (Int × UsageRecord)) : Prop :=
  (m.map Prod.fst).Nodup ∧ ∀ p ∈ m, p.2.timestamp = p.1

/-- First record stored at key `k` (the JS `Map` holds at most one). -/
def lookupTs (m : List (Int × UsageRecord)) (k : Int) : Option UsageRecord :=
  (m.find? fun p => decide (p.1 = k)).map Prod.snd

theorem upsert_tsKeysOk (m : List (Int × UsageRecord)) (r : UsageRecord)
    (h : tsKeysOk m) : tsKeysOk (upsertByTimestamp m r) := by
  rcases h with ⟨hnd, hts⟩
  rw [upsertByTimestamp]
  by_cases hmem : m.any (fun p => decide (p.1 = r.timestamp)) = true
  · rw [if_pos hmem]
    constructor
    · have hfst : (m.map fun p => if p.1 = r.timestamp then (p.1, r) else p).map Prod.fst
          = m.map Prod.fst := by
        rw [List.map_map]
        apply List.map_congr_left
        intro p _
        by_cases hp : p.1 = r.timestamp <;> simp [hp]
      rw [hfst]
      exact hnd
    · intro p hp
      rcases List.mem_map.mp hp with ⟨q, hq, rfl⟩
      by_cases hq1 : q.1 = r.timestamp
      · simp [hq1]
      · simpa [hq1] using hts q hq
  · rw [if_neg hmem]
    constructor
    · rw [List.map_append]
      simp only [List.map_cons, List.map_nil]
      apply List.Nodup.append hnd (by simp)
      intro a ha hb
      simp only [List.mem_singleton] at hb
      subst hb
      rcases List.mem_map.mp ha with ⟨q, hq, hfst⟩
      exact hmem (List.any_eq_true.mpr ⟨q, hq, by simp [hfst]⟩)
    · intro p hp
      rcases List.mem_append.mp hp with hpm | hps
      · exact hts p hpm
      · simp only [List.mem_singleton] at hps
        subst hps
        rfl

theorem upsert_lookup_self (m : List (Int × UsageRecord)) (r : UsageRecord) :
    lookupTs (upsertByTimestamp m r) r.timestamp = some r := by
  rw [upsertByTimestamp]
  by_cases hmem : m.any (fun p => decide (p.1 = r.timestamp)) = true
  · rw [if_pos hmem, lookupTs, List.find?_map]
    have hfind : ∃ q, m.find? (fun p => decide (p.1 = r.timestamp)) = some q := by
      rcases List.any_eq_true.mp hmem with ⟨q, hq, hpq⟩
      rcases hq2 : m.find? (fun p => decide (p.1 = r.timestamp)) with _ | q2
      · rw [List.find?_eq_none] at hq2
        exact absurd hpq (hq2 q hq)
      · exact ⟨q2, hq2⟩
    rcases hfind with ⟨q, hq⟩
    have hpred : q.1 = r.timestamp := by simpa using List.find?_some hq
    have harg : (fun p : Int × UsageRecord => decide (p.1 = r.timestamp)) ∘
        (fun p : Int × UsageRecord => if p.1 = r.timestamp then (p.1, r) else p)
        = fun p : Int × UsageRecord => decide (p.1 = r.timestamp) := by
      funext p
      by_cases hp : p.1 = r.timestamp <;> simp [hp]
    rw [harg, hq]
    simp [hpred]
  · rw [if_neg hmem, lookupTs, List.find?_append]
    have hnone : m.find? (fun p => decide (p.1 = r.timestamp)) = none := by
      rw [List.find?_eq_none]
      intro p hp hcontra
      exact hmem (List.any_eq_true.mpr ⟨p, hp, hcontra⟩)
    rw [hnone]
    simp

theorem upsert_lookup_other (m : List (Int × UsageRecord)) (r : UsageRecord) (k : Int)
    (h : k ≠ r.timestamp) :
    lookupTs (upsertByTimestamp m r) k = lookupTs m k := by
  rw [upsertByTimestamp]
  by_cases hmem : m.any (fun p => decide (p.1 = r.timestamp)) = true
  · rw [if_pos hmem, lookupTs, List.find?_map]
    have harg : (fun p : Int × UsageRecord => decide (p.1 = k)) ∘
        (fun p : Int × UsageRecord => if p.1 = r.timestamp then (p.1, r) else p)
        = fun p : Int × UsageRecord => decide (p.1 = k) := by
      funext p
      by_cases hp : p.1 = r.timestamp <;> simp [hp]
    rw [harg, lookupTs]
    rcases hq : m.find? (fun p => decide (p.1 = k)) with _ | q
    · rw [hq]
      simp
    · have hpred : q.1 = k := by simpa using List.find?_some hq
      have hne : q.1 ≠ r.timestamp := by rw [hpred]; exact h
      rw [hq]
      simp [hne]
  · rw [if_neg hmem, lookupTs, List.find?_append, lookupTs]
    rcases hq : m.find? (fun p => decide (p.1 = k)) with _ | q
    · rw [hq]
      simp [Ne.symm h]
    · rw [hq]
      simp

theorem foldl_upsert_tsKeysOk (rs : List UsageRecord) (m : List (Int × UsageRecord))
    (h : tsKeysOk m) : tsKeysOk (rs.foldl upsertByTimestamp m) := by
  induction rs generalizing m with
  | nil => exact h
  | cons r rs ih => exact ih _ (upsert_tsKeysOk m r h)

theorem foldl_upsert_lookup (rs : List UsageRecord) (m : List (Int × UsageRecord)) (k : Int) :
    lookupTs (rs.foldl upsertByTimestamp m) k =
      match (rs.filter fun x => decide (x.timestamp = k)).getLast? with
      | some x => some x
      | none => lookupTs m k := by
  induction rs generalizing m with
  | nil => simp
  | cons r rs ih =>
    simp only [List.foldl_cons]
    rw [ih]
    rcases hgl : (rs.filter fun x => decide (x.timestamp = k)).getLast? with _ | x
    · have hfe : (rs.filter fun x => decide (x.timestamp = k)) = [] := by
        rcases hlist : rs.filter fun x => decide (x.timestamp = k) with _ | _
        · exact hlist
        · rw [hlist] at hgl
          simp [List.getLast?] at hgl
      by_cases hr : r.timestamp = k
      · rw [List.filter_cons, if_pos (by simp [hr]), hfe]
        subst hr
        simp [upsert_lookup_self]
      · rw [List.filter_cons, if_neg (by simp [hr]), hfe]
        simp [upsert_lookup_other m r k (Ne.symm hr)]
    · have hne : (rs.filter fun x => decide (x.timestamp = k)) ≠ [] := by
        intro h0
        rw [h0] at hgl
        simp at hgl
      rw [List.filter_cons]
      by_cases hr : r.timestamp = k
      · rw [if_pos (by simp [hr])]
        rcases hlist : rs.filter fun x => decide (x.timestamp = k) with _ | ⟨y, ys⟩
        · exact absurd hlist hne
        · rw [hlist] at hgl
          rw [hlist, List.getLast?_cons_cons, hgl]
      · rw [if_neg (by simp [hr]), hgl]

theorem values_filter (m : List (Int × UsageRecord)) (h : tsKeysOk m) (k : Int) :
    ((m.map Prod.snd).filter fun r => decide (r.timestamp = k)) =
      match lookupTs m k with | some r => [r] | none => [] := by
  induction m with
  | nil => simp [lookupTs]
  | cons p m ih =>
    rcases h with ⟨hnd, hts⟩
    simp only [List.map_cons, List.nodup_cons] at hnd
    have hp2 : p.2.timestamp = p.1 := hts p (by simp)
    have htail : tsKeysOk m := ⟨hnd.2, fun q hq => hts q (List.mem_cons_of_mem _ hq)⟩
    simp only [List.map_cons, List.filter_cons]
    rw [lookupTs]
    by_cases hp1 : p.1 = k
    · rw [List.find?_cons_of_pos _ (by simp [hp1])]
      have hrest : ((m.map Prod.snd).filter fun r => decide (r.timestamp = k)) = [] := by
        rw [List.filter_eq_nil_iff]
        intro v hv
        rcases List.mem_map.mp hv with ⟨q, hq, rfl⟩
        rw [htail.2 q hq]
        simp only [decide_eq_true_eq]
        intro hqk
        exact hnd.1 (by rw [← hp1] at hqk; rw [← hqk]; exact List.mem_map_of_mem Prod.fst hq)
      rw [if_pos (by simp [hp2, hp1]), hrest]
      simp
    · rw [List.find?_cons_of_neg _ (by simp [hp1])]
      rw [if_neg (by simp [hp2, hp1])]
      rw [← lookupTs]
      exact ih htail

theorem getLast?_append_right {α : Type} (l₁ l₂ : List α) (h : l₂ ≠ []) :
    (l₁ ++ l₂).getLast? = l₂.getLast? := by
  induction l₁ with
  | nil => simp
  | cons a l ih =>
    rcases hl : l ++ l₂ with _ | ⟨x, xs⟩
    · exact absurd (List.append_eq_nil.mp hl).2 h
    · rw [List.cons_append, hl, List.getLast?_cons_cons, ← hl, ih]

theorem getLast?_of_all_eq {α : Type} (l : List α) (h : l ≠ []) (c : α)
    (hall : ∀ x ∈ l, x = c) : l.getLast? = some c := by
  induction l with
  | nil => exact absurd rfl h
  | cons a t ih =>
    rcases ht : t with _ | ⟨b, t2⟩
    · simp [List.getLast?, hall a (by simp)]
    · rw [List.getLast?_cons_cons, ← ht]
      exact ih (by simp [ht]) fun x hx => hall x (List.mem_cons_of_mem _ hx)

theorem merged_values_ts_eq_keys (m : List (Int × UsageRecord)) (h : tsKeysOk m) :
    (m.map Prod.snd).map UsageRecord.timestamp = m.map Prod.fst := by
  rw [List.map_map]
  apply List.map_congr_left
  intro p hp
  exact h.2 p hp

theorem tsKeysOk_nil : tsKeysOk [] := ⟨by simp, by simp⟩

theorem mergeSeries_filter_eq (ls : List (List UsageRecord)) (t : Int) (b : UsageRecord)
    (hlast : (ls.flatten.filter fun x => decide (x.timestamp = t)).getLast? = some b) :
    (mergeSeries ls).filter (fun x => decide (x.timestamp = t)) = [b] := by
  have hok := foldl_upsert_tsKeysOk ls.flatten [] tsKeysOk_nil
  have hlook : lookupTs (ls.flatten.foldl upsertByTimestamp []) t = some b := by
    rw [foldl_upsert_lookup, hlast]
  have hvals := values_filter _ hok t
  rw [hlook] at hvals
  have hperm :=
    (sortByKey_perm UsageRecord.timestamp
      ((ls.flatten.foldl upsertByTimestamp []).map Prod.snd)).filter
      (fun x => decide (x.timestamp = t))
  rw [hvals] at hperm
  exact List.perm_singleton.mp hperm

/-- Claim C6: the merged output has strictly unique, ascending timestamps. -/
theorem claim_C6 (seriesList : List (List UsageRecord)) :
    (mergeSeries seriesList).Pairwise (fun a b => a.timestamp < b.timestamp) := by
  have hok := foldl_upsert_tsKeysOk seriesList.flatten [] tsKeysOk_nil
  have hle := sortByKey_pairwise UsageRecord.timestamp
    ((seriesList.flatten.foldl upsertByTimestamp []).map Prod.snd)
  have hperm := sortByKey_perm UsageRecord.timestamp
    ((seriesList.flatten.foldl upsertByTimestamp []).map Prod.snd)
  have hnodup : (((seriesList.flatten.foldl upsertByTimestamp []).map Prod.snd).map
      UsageRecord.timestamp).Nodup := by
    rw [merged_values_ts_eq_keys _ hok]
    exact hok.1
  exact pairwise_lt_of_le_nodup UsageRecord.timestamp _ hle
    (((hperm.map UsageRecord.timestamp).nodup_iff).mpr hnodup)

/-- Claim C5: merging resolves duplicate instants by last-input-wins — for
series A and B sharing instant `t` (with `a`, `b` the unique records of A,
B at `t`), `merge [A, B]` keeps exactly B's record at `t` and
`merge [B, A]` keeps exactly A's. -/
theorem claim_C5 (A B : List UsageRecord) (t : Int) (a b : UsageRecord)
    (ha : a ∈ A) (hb : b ∈ B) (hat : a.timestamp = t) (hbt : b.timestamp = t)
    (huA : ∀ x ∈ A, x.timestamp = t → x = a) (huB : ∀ x ∈ B, x.timestamp = t → x = b) :
    (mergeSeries [A, B]).filter (fun x => decide (x.timestamp = t)) = [b] ∧
    (mergeSeries [B, A]).filter (fun x => decide (x.timestamp = t)) = [a] := by
  have hflat : ∀ X Y : List UsageRecord, ([X, Y] : List (List UsageRecord)).flatten = X ++ Y := by
    intro X Y
    simp
  have hlastgen : ∀ (X Y : List UsageRecord) (c : UsageRecord), c ∈ Y → c.timestamp = t →
      (∀ x ∈ Y, x.timestamp = t → x = c) →
      (((X ++ Y).filter fun x => decide (x.timestamp = t)).getLast? = some c) := by
    intro X Y c hc hct huY
    rw [List.filter_append]
    have hcf : c ∈ Y.filter fun x => decide (x.timestamp = t) :=
      List.mem_filter.mpr ⟨hc, by simp [hct]⟩
    have hne : (Y.filter fun x => decide (x.timestamp = t)) ≠ [] := by
      intro h0
      rw [h0] at hcf
      exact List.not_mem_nil c hcf
    rw [getLast?_append_right _ _ hne]
    apply getLast?_of_all_eq _ hne
    intro x hx
    rcases List.mem_filter.mp hx with ⟨hxY, hxt⟩
    exact huY x hxY (by simpa using hxt)
  constructor
  · apply mergeSeries_filter_eq
    rw [hflat]
    exact hlastgen A B b hb hbt huB
  · apply mergeSeries_filter_eq
    rw [hflat]
    exact hlastgen B A a ha hat huA

/-! ### Lemmas about the gap filler -/

theorem range_map_syn_succ (k : Nat) (e : Int) :
    (List.range (k + 1)).map (fun j : Nat => mkSynthetic (e + fifteenMinutes * (j : Int))) =
      mkSynthetic e ::
        (List.range k).map (fun j : Nat => mkSynthetic (e + fifteenMinutes + fifteenMinutes * (j : Int))) := by
  rw [List.range_succ_eq_map]
  simp only [List.map_cons, List.map_map]
  congr 1
  · norm_num
  · apply List.map_congr_left
    intro j _
    simp only [Function.comp_apply]
    congr 1
    push_cast
    ring

theorem fillBetween_spec_aux :
    ∀ (N : Nat) (e next : Int), (next - e).toNat ≤ N →
      ∃ k : Nat,
        fillBetween e next = (List.range k).map (fun j : Nat => mkSynthetic (e + fifteenMinutes * (j : Int))) ∧
        (∀ j : Nat, j < k → e + fifteenMinutes * j < next) ∧
        next ≤ e + fifteenMinutes * k := by
  intro N
  induction N with
  | zero =>
    intro e next hN
    have hnot : ¬e < next := by omega
    refine ⟨0, ?_, by omega, ?_⟩
    · rw [fillBetween, if_neg hnot]
      simp
    · simp only [Nat.cast_zero, mul_zero, add_zero]
      omega
  | succ N ih =>
    intro e next hN
    by_cases h : e < next
    · have hm : (next - (e + fifteenMinutes)).toNat ≤ N := by
        simp only [fifteenMinutes] at hN ⊢
        omega
      obtain ⟨k, hk, hlt, hle⟩ := ih (e + fifteenMinutes) next hm
      refine ⟨k + 1, ?_, ?_, ?_⟩
      · rw [fillBetween, if_pos h, hk, range_map_syn_succ]
      · intro j hj
        rcases j with _ | j
        · simpa using h
        · have := hlt j (by omega)
          simp only [fifteenMinutes] at this ⊢
          push_cast at this ⊢
          omega
      · simp only [fifteenMinutes] at hle ⊢
        push_cast at hle ⊢
        omega
    · refine ⟨0, ?_, by omega, ?_⟩
      · rw [fillBetween, if_neg h]
        simp
      · simp only [Nat.cast_zero, mul_zero, add_zero]
        omega

theorem fillBetween_spec (e next : Int) :
    ∃ k : Nat,
      fillBetween e next = (List.range k).map (fun j : Nat => mkSynthetic (e + fifteenMinutes * (j : Int))) ∧
      (∀ j : Nat, j < k → e + fifteenMinutes * j < next) ∧
      next ≤ e + fifteenMinutes * k :=
  fillBetween_spec_aux ((next - e).toNat) e next le_rfl

theorem fillBetween_multiple (k : Nat) :
    ∀ e : Int, fillBetween e (e + fifteenMinutes * k) =
      (List.range k).map (fun j : Nat => mkSynthetic (e + fifteenMinutes * (j : Int))) := by
  induction k with
  | zero =>
    intro e
    rw [fillBetween, if_neg (by simp [fifteenMinutes])]
    simp
  | succ k ih =>
    intro e
    have hpos : e < e + fifteenMinutes * (k + 1 : Nat) := by
      simp only [fifteenMinutes]
      push_cast
      omega
    rw [fillBetween, if_pos hpos, range_map_syn_succ]
    congr 1
    have harg : e + fifteenMinutes * ((k : Nat) + 1 : Nat) = e + fifteenMinutes + fifteenMinutes * k := by
      push_cast
      ring
    rw [harg]
    exact ih (e + fifteenMinutes)

theorem fill_head (r : UsageRecord) (rest : List UsageRecord) :
    ∃ tail, fillMissingIntervals (r :: rest) = r :: tail := by
  cases rest with
  | nil => exact ⟨[], rfl⟩
  | cons next rest2 => exact ⟨_, rfl⟩

theorem fill_getLast? (l : List UsageRecord) (h : l ≠ []) :
    (fillMissingIntervals l).getLast? = l.getLast? := by
  induction l with
  | nil => exact absurd rfl h
  | cons r rest ih =>
    cases rest with
    | nil => rfl
    | cons next rest2 =>
      have h2 : fillMissingIntervals (r :: next :: rest2) =
          r :: (fillBetween (r.timestamp + fifteenMinutes) next.timestamp
            ++ fillMissingIntervals (next :: rest2)) := rfl
      obtain ⟨tail, htail⟩ := fill_head next rest2
      have hnn : fillMissingIntervals (next :: rest2) ≠ [] := by
        rw [htail]
        simp
      have hAB : fillBetween (r.timestamp + fifteenMinutes) next.timestamp
          ++ fillMissingIntervals (next :: rest2) ≠ [] := by
        intro h0
        exact hnn (List.append_eq_nil.mp h0).2
      have hsplit : (r :: (fillBetween (r.timestamp + fifteenMinutes) next.timestamp
          ++ fillMissingIntervals (next :: rest2))) =
          [r] ++ (fillBetween (r.timestamp + fifteenMinutes) next.timestamp
            ++ fillMissingIntervals (next :: rest2)) := rfl
      rw [h2, hsplit, getLast?_append_right _ _ hAB, getLast?_append_right _ _ hnn,
        ih (by simp), List.getLast?_cons_cons]

theorem fill_filter_real (l : List UsageRecord) (h : ∀ r ∈ l, r.synthetic = false) :
    (fillMissingIntervals l).filter (fun r => !r.synthetic) = l := by
  induction l with
  | nil => rfl
  | cons r rest ih =>
    cases rest with
    | nil => simp [fillMissingIntervals, h r (by simp)]
    | cons next rest2 =>
      have h2 : fillMissingIntervals (r :: next :: rest2) =
          r :: (fillBetween (r.timestamp + fifteenMinutes) next.timestamp
            ++ fillMissingIntervals (next :: rest2)) := rfl
      obtain ⟨k, hk, _, _⟩ := fillBetween_spec (r.timestamp + fifteenMinutes) next.timestamp
      have hchunk : (fillBetween (r.timestamp + fifteenMinutes) next.timestamp).filter
          (fun r => !r.synthetic) = [] := by
        rw [hk, List.filter_eq_nil_iff]
        intro x hx
        rcases List.mem_map.mp hx with ⟨j, _, rfl⟩
        simp [mkSynthetic]
      rw [h2, List.filter_cons, if_pos (by simp [h r (by simp)]), List.filter_append, hchunk]
      rw [List.nil_append, ih (fun x hx => h x (List.mem_cons_of_mem _ hx))]

theorem chain_cons_syn_append :
    ∀ (k : Nat) (e : Int) (x y : UsageRecord) (tail : List UsageRecord),
      x.timestamp + fifteenMinutes = e →
      tail.head? = some y →
      List.Chain' (fun a b => a.timestamp < b.timestamp ∧
        b.timestamp - a.timestamp ≤ fifteenMinutes) tail →
      x.timestamp < y.timestamp →
      y.timestamp ≤ e + fifteenMinutes * k →
      (∀ j : Nat, j < k → e + fifteenMinutes * j < y.timestamp) →
      List.Chain' (fun a b => a.timestamp < b.timestamp ∧
          b.timestamp - a.timestamp ≤ fifteenMinutes)
        (x :: ((List.range k).map (fun j : Nat => mkSynthetic (e + fifteenMinutes * (j : Int))) ++ tail)) := by
  intro k
  induction k with
  | zero =>
    intro e x y tail he hhead hchain hxy hyk _
    simp only [List.range_zero, List.map_nil, List.nil_append]
    refine List.chain'_cons'.mpr ⟨?_, hchain⟩
    intro z hz
    rw [hhead] at hz
    simp only [Option.mem_def, Option.some.injEq] at hz
    subst hz
    refine ⟨hxy, ?_⟩
    simp only [Nat.cast_zero, mul_zero, add_zero] at hyk
    omega
  | succ k ih =>
    intro e x y tail he hhead hchain hxy hyk hj
    rw [range_map_syn_succ, List.cons_append]
    refine List.chain'_cons.mpr ⟨?_, ?_⟩
    · constructor
      · show x.timestamp < e
        have : (0 : Int) < fifteenMinutes := by simp [fifteenMinutes]
        omega
      · show e - x.timestamp ≤ fifteenMinutes
        omega
    · apply ih (e + fifteenMinutes) (mkSynthetic e) y tail
      · simp [mkSynthetic]
      · exact hhead
      · exact hchain
      · show e < y.timestamp
        have h0 := hj 0 (by omega)
        simpa using h0
      · have : e + fifteenMinutes * ((k : Nat) + 1 : Nat) =
            e + fifteenMinutes + fifteenMinutes * k := by
          push_cast
          ring
        rw [← this]
        exact hyk
      · intro j hjk
        have := hj (j + 1) (by omega)
        have harg : e + fifteenMinutes * ((j : Nat) + 1 : Nat) =
            e + fifteenMinutes + fifteenMinutes * j := by
          push_cast
          ring
        rw [harg] at this
        exact this

theorem fill_chain (l : List UsageRecord)
    (h : l.Pairwise (fun a b => a.timestamp < b.timestamp)) :
    List.Chain' (fun a b => a.timestamp < b.timestamp ∧
      b.timestamp - a.timestamp ≤ fifteenMinutes) (fillMissingIntervals l) := by
  induction l with
  | nil => simp [fillMissingIntervals]
  | cons r rest ih =>
    cases rest with
    | nil => simp [fillMissingIntervals]
    | cons next rest2 =>
      have h2 : fillMissingIntervals (r :: next :: rest2) =
          r :: (fillBetween (r.timestamp + fifteenMinutes) next.timestamp
            ++ fillMissingIntervals (next :: rest2)) := rfl
      rw [h2]
      obtain ⟨k, hk, hlt, hle⟩ := fillBetween_spec (r.timestamp + fifteenMinutes) next.timestamp
      rw [hk]
      rcases List.pairwise_cons.mp h with ⟨hr, htail⟩
      obtain ⟨tail, htl⟩ := fill_head next rest2
      exact chain_cons_syn_append k (r.timestamp + fifteenMinutes) r next
        (fillMissingIntervals (next :: rest2)) rfl (by rw [htl]; rfl) (ih htail)
        (hr next (by simp)) hle hlt

theorem fillMissingIntervals_pair (a b : UsageRecord) (k : Nat)
    (h : b.timestamp = a.timestamp + fifteenMinutes + fifteenMinutes * k) :
    fillMissingIntervals [a, b] =
      a :: ((List.range k).map
        (fun j : Nat => mkSynthetic (a.timestamp + fifteenMinutes + fifteenMinutes * (j : Int)))
        ++ [b]) := by
  have hgen : fillMissingIntervals [a, b] =
      a :: (fillBetween (a.timestamp + fifteenMinutes) b.timestamp ++ [b]) := rfl
  rw [hgen, h, fillBetween_multiple k (a.timestamp + fifteenMinutes)]

/-- Claim C7: two consecutive real records 90 minutes apart get exactly 5
synthetic records at the 15-minute boundaries strictly between them, each
with zero usage, `synthetic = true` and source `"synthetic-gap-fill"`; the
last input record is always emitted last, with no trailing synthesis; and
the empty input is returned unchanged. -/
theorem claim_C7 (r1 r2 : UsageRecord)
    (hgap : r2.timestamp = r1.timestamp + 90 * msPerMinute) :
    (fillMissingIntervals [r1, r2] =
      r1 :: ((List.range 5).map
        (fun j : Nat => mkSynthetic (r1.timestamp + fifteenMinutes + fifteenMinutes * (j : Int)))
        ++ [r2])) ∧
    (∀ j : Nat, j < 5 →
      (mkSynthetic (r1.timestamp + fifteenMinutes + fifteenMinutes * (j : Int))).importKWh = 0 ∧
      (mkSynthetic (r1.timestamp + fifteenMinutes + fifteenMinutes * (j : Int))).synthetic = true ∧
      (mkSynthetic (r1.timestamp + fifteenMinutes + fifteenMinutes * (j : Int))).source =
        "synthetic-gap-fill") ∧
    (∀ l : List UsageRecord, l ≠ [] → (fillMissingIntervals l).getLast? = l.getLast?) ∧
    fillMissingIntervals ([] : List UsageRecord) = [] := by
  refine ⟨?_, ?_, fill_getLast?, rfl⟩
  · apply fillMissingIntervals_pair r1 r2 5
    rw [hgap]
    simp only [fifteenMinutes, msPerMinute]
    push_cast
    ring
  · intro j _
    exact ⟨rfl, rfl, rfl⟩

/-- Claim C7 witness: concrete records at 2024-01-02 00:00 and 01:30 local. -/
theorem claim_C7_witness :
    ({ timestamp := 1704187800000, date := "2024-01-02", startTime := "01:30",
       importKWh := 2, source := "a.csv", synthetic := false } : UsageRecord).timestamp =
      ({ timestamp := 1704182400000, date := "2024-01-02", startTime := "00:00",
         importKWh := 1, source := "a.csv", synthetic := false } : UsageRecord).timestamp
        + 90 * msPerMinute ∧
    ((fillMissingIntervals
        [{ timestamp := 1704182400000, date := "2024-01-02", startTime := "00:00",
           importKWh := 1, source := "a.csv", synthetic := false },
         { timestamp := 1704187800000, date := "2024-01-02", startTime := "01:30",
           importKWh := 2, source := "a.csv", synthetic := false }] =
      { timestamp := 1704182400000, date := "2024-01-02", startTime := "00:00",
        importKWh := 1, source := "a.csv", synthetic := false } ::
        ((List.range 5).map
          (fun j : Nat => mkSynthetic ((1704182400000 : Int) + fifteenMinutes
            + fifteenMinutes * (j : Int)))
        ++ [{ timestamp := 1704187800000, date := "2024-01-02", startTime := "01:30",
              importKWh := 2, source := "a.csv", synthetic := false }])) ∧
    (∀ j : Nat, j < 5 →
      (mkSynthetic ((1704182400000 : Int) + fifteenMinutes + fifteenMinutes * (j : Int))).importKWh = 0 ∧
      (mkSynthetic ((1704182400000 : Int) + fifteenMinutes + fifteenMinutes * (j : Int))).synthetic = true ∧
      (mkSynthetic ((1704182400000 : Int) + fifteenMinutes + fifteenMinutes * (j : Int))).source =
        "synthetic-gap-fill") ∧
    (∀ l : List UsageRecord, l ≠ [] → (fillMissingIntervals l).getLast? = l.getLast?) ∧
    fillMissingIntervals ([] : List UsageRecord) = []) :=
  ⟨by decide, claim_C7
    { timestamp := 1704182400000, date := "2024-01-02", startTime := "00:00",
      importKWh := 1, source := "a.csv", synthetic := false }
    { timestamp := 1704187800000, date := "2024-01-02", startTime := "01:30",
      importKWh := 2, source := "a.csv", synthetic := false }
    (by decide)⟩

/-- Claim C10: for every strictly-ascending input, consecutive gap-filler
outputs move forward in time by at most 15 minutes, and filtering the
output to its non-synthetic records recovers the input exactly. -/
theorem claim_C10 (l : List UsageRecord)
    (h : l.Pairwise (fun a b => a.timestamp < b.timestamp)) :
    List.Chain' (fun a b => a.timestamp < b.timestamp ∧
      b.timestamp - a.timestamp ≤ fifteenMinutes) (fillMissingIntervals l) ∧
    ((∀ r ∈ l, r.synthetic = false) →
      (fillMissingIntervals l).filter (fun r => !r.synthetic) = l) :=
  ⟨fill_chain l h, fun hreal => fill_filter_real l hreal⟩

/-- Claim C10 witness: a concrete two-record ascending series. -/
theorem claim_C10_witness :
    ([{ timestamp := 1704182400000, date := "2024-01-02", startTime := "00:00",
        importKWh := 1, source := "a.csv", synthetic := false },
      { timestamp := 1704187800000, date := "2024-01-02", startTime := "01:30",
        importKWh := 2, source := "a.csv", synthetic := false }] : List UsageRecord).Pairwise
      (fun a b => a.timestamp < b.timestamp) ∧
    (List.Chain' (fun a b => a.timestamp < b.timestamp ∧
      b.timestamp - a.timestamp ≤ fifteenMinutes)
      (fillMissingIntervals
        [{ timestamp := 1704182400000, date := "2024-01-02", startTime := "00:00",
           importKWh := 1, source := "a.csv", synthetic := false },
         { timestamp := 1704187800000, date := "2024-01-02", startTime := "01:30",
           importKWh := 2, source := "a.csv", synthetic := false }]) ∧
    ((∀ r ∈ ([{ timestamp := 1704182400000, date := "2024-01-02", startTime := "00:00",
                importKWh := 1, source := "a.csv", synthetic := false },
              { timestamp := 1704187800000, date := "2024-01-02", startTime := "01:30",
                importKWh := 2, source := "a.csv", synthetic := false }] : List UsageRecord),
        r.synthetic = false) →
      (fillMissingIntervals
        [{ timestamp := 1704182400000, date := "2024-01-02", startTime := "00:00",
           importKWh := 1, source := "a.csv", synthetic := false },
         { timestamp := 1704187800000, date := "2024-01-02", startTime := "01:30",
           importKWh := 2, source := "a.csv", synthetic := false }]).filter
          (fun r => !r.synthetic) =
        [{ timestamp := 1704182400000, date := "2024-01-02", startTime := "00:00",
           importKWh := 1, source := "a.csv", synthetic := false },
         { timestamp := 1704187800000, date := "2024-01-02", startTime := "01:30",
           importKWh := 2, source := "a.csv", synthetic := false }])) :=
  ⟨by simp [List.pairwise_cons], claim_C10 _ (by simp [List.pairwise_cons])⟩

/-! ### Lemmas about the row parser -/

theorem except_bind_ok {ε α β : Type} (x : Except ε α) (g : α → Except ε β) (c : β)
    (h : (x >>= g) = .ok c) : ∃ a, x = .ok a ∧ g a = .ok c := by
  cases x with
  | error e => exact Except.noConfusion h
  | ok a => exact ⟨a, rfl, h⟩

theorem mapM_ok_forall2 {α β : Type} (f : α → Except JsRangeError β) :
    ∀ (l : List α) (out : List β), l.mapM f = .ok out →
      List.Forall₂ (fun a b => f a = .ok b) l out := by
  intro l
  induction l with
  | nil =>
    intro out h
    cases h
    exact List.Forall₂.nil
  | cons a l ih =>
    intro out h
    rw [List.mapM_cons] at h
    obtain ⟨b, hfa, h2⟩ := except_bind_ok _ _ _ h
    obtain ⟨bs, hml, h3⟩ := except_bind_ok _ _ _ h2
    cases h3
    exact List.Forall₂.cons hfa (ih bs hml)

theorem forall2_mem {α β : Type} {R : α → β → Prop} :
    ∀ {l1 : List α} {l2 : List β}, List.Forall₂ R l1 l2 → ∀ b ∈ l2, ∃ a ∈ l1, R a b := by
  intro l1 l2 h
  induction h with
  | nil => simp
  | cons hR _ ih =>
    intro b hb
    rcases List.mem_cons.mp hb with rfl | hmem
    · exact ⟨_, by simp, hR⟩
    · rcases ih b hmem with ⟨a, ha, hr⟩
      exact ⟨a, List.mem_cons_of_mem _ ha, hr⟩

theorem parseRow_ok_some (source : String) (row : CsvRow) (r : UsageRecord)
    (h : parseRow source row = .ok (some r)) :
    ∃ d st ts, row.dateField = some d ∧ row.startTimeField = some st ∧
      zonedDateTimeToDate d st = .ok ts ∧
      r = { timestamp := ts, date := d, startTime := st,
            importKWh := importValueOf row, source := source, synthetic := false } := by
  rcases row with ⟨df, stf, imf⟩
  cases df with
  | none => exact absurd h (by simp [parseRow, pure, Except.pure])
  | some d =>
    cases stf with
    | none => exact absurd h (by simp [parseRow, pure, Except.pure])
    | some st =>
      rw [parseRow] at h
      dsimp only at h ⊢
      by_cases hde : d = "" ∨ st = ""
      · rw [if_pos hde] at h
        exact absurd h (by simp [pure, Except.pure])
      · rw [if_neg hde] at h
        obtain ⟨ts, hts, h2⟩ := except_bind_ok _ _ _ h
        refine ⟨d, st, ts, rfl, rfl, hts, ?_⟩
        exact (Option.some.inj (Except.ok.inj h2)).symm

theorem mapM_error_of_mem (source : String) :
    ∀ (rows : List CsvRow),
      (∃ row ∈ rows, ∃ e, parseRow source row = .error e) →
      ∃ e, rows.mapM (parseRow source) = .error e := by
  intro rows
  induction rows with
  | nil => rintro ⟨row, hmem, _⟩; exact absurd hmem (List.not_mem_nil row)
  | cons a rows ih =>
    rintro ⟨row, hmem, e, herr⟩
    rw [List.mapM_cons]
    rcases List.mem_cons.mp hmem with rfl | hmem2
    · rw [herr]
      exact ⟨e, rfl⟩
    · cases ha : parseRow source a with
      | error e2 => exact ⟨e2, rfl⟩
      | ok b =>
        obtain ⟨e3, he3⟩ := ih ⟨row, hmem2, e, herr⟩
        rw [he3]
        exact ⟨e3, rfl⟩

/-! ### Lemmas about the range filter -/

theorem except_ok_bind {ε α β : Type} (a : α) (f : α → Except ε β) :
    ((Except.ok a : Except ε α) >>= f) = f a := rfl

theorem except_pure_bind {ε α β : Type} (a : α) (f : α → Except ε β) :
    ((pure a : Except ε α) >>= f) = f a := rfl

theorem ediv_eq_hdiv (a b : Int) : Int.ediv a b = a / b := rfl

theorem filterByRange_some_some (records : List UsageRecord) (s e : String) (sMs eMs : Int)
    (hsne : s ≠ "") (hene : e ≠ "")
    (hs : zonedDateTimeToDate s "00:00" = .ok sMs)
    (he : zonedDateTimeToDate e "00:00" = .ok eMs) :
    filterByRange records (some s) (some e) =
      .ok (records.filter fun r =>
        decide (sMs ≤ r.timestamp) && decide (r.timestamp < eMs + msPerDay)) := by
  rw [filterByRange]
  by_cases hlen : records.length = 0
  · rw [if_pos hlen, List.length_eq_zero.mp hlen]
    rfl
  · rw [if_neg hlen, if_neg (by simp [strFalsy, hsne, hene])]
    dsimp only
    rw [if_neg hsne, hs]
    simp only [except_ok_bind, except_pure_bind]
    rw [if_neg hene, he]
    simp only [except_ok_bind, except_pure_bind]
    rfl

theorem filterByRange_none_none (l : List UsageRecord) :
    filterByRange l none none = .ok l := by
  cases l with
  | nil => rfl
  | cons a t =>
    rw [filterByRange, if_neg (by simp), if_pos (by simp [strFalsy])]
    rfl

theorem formatDateInZone_eq (t off d : Int)
    (hoff : laOffsetMinutes t = off)
    (hd : Int.ediv (t + off * msPerMinute) msPerDay = d) :
    formatDateInZone t =
      toString (civilFromDays d).1 ++ "-" ++ pad2 (civilFromDays d).2.1 ++ "-"
        ++ pad2 (civilFromDays d).2.2 := by
  rw [formatDateInZone, formatToPartsLA, hoff]
  simp only [civilOfMs]
  rw [hd]

theorem laOffset_neg480 (t y : Int)
    (hy : (civilFromDays (Int.ediv t msPerDay)).1 = y)
    (hcond : ¬(dstStartMs y ≤ t ∧ t < dstEndMs y)) :
    laOffsetMinutes t = -480 := by
  rw [laOffsetMinutes]
  rw [hy, if_neg hcond]

/-- In the civil-date window 2024-01-01 .. 2024-01-03 (all PST) a record's
instant lies in the range-filter window for `startDate = endDate =
2024-01-02` exactly when its local civil date is `2024-01-02`. -/
theorem jan_window_pred (t : Int) (hlo : 1704096000000 ≤ t) (hhi : t < 1704355200000) :
    (decide ((1704182400000 : Int) ≤ t) && decide (t < 1704182400000 + msPerDay)) =
      decide (formatDateInZone t = "2024-01-02") := by
  have hday : Int.ediv t msPerDay = 19723 ∨ Int.ediv t msPerDay = 19724 ∨
      Int.ediv t msPerDay = 19725 ∨ Int.ediv t msPerDay = 19726 := by
    rw [ediv_eq_hdiv]
    simp only [msPerDay]
    omega
  have hyear : (civilFromDays (Int.ediv t msPerDay)).1 = 2024 := by
    rcases hday with h | h | h | h <;> rw [h] <;> decide
  have hoff : laOffsetMinutes t = -480 := by
    apply laOffset_neg480 t 2024 hyear
    have h1 : dstStartMs 2024 = 1710064800000 := by decide
    have h2 : dstEndMs 2024 = 1730624400000 := by decide
    rw [h1, h2]
    omega
  have hd2 : Int.ediv (t + -480 * msPerMinute) msPerDay = 19723 ∨
      Int.ediv (t + -480 * msPerMinute) msPerDay = 19724 ∨
      Int.ediv (t + -480 * msPerMinute) msPerDay = 19725 := by
    rw [ediv_eq_hdiv]
    simp only [msPerDay, msPerMinute]
    omega
  rcases hd2 with h | h | h
  · have hfd := formatDateInZone_eq t (-480) 19723 hoff h
    have hlt : t < 1704182400000 := by
      rw [ediv_eq_hdiv] at h
      simp only [msPerDay, msPerMinute] at h
      omega
    rw [hfd]
    rw [decide_eq_false (by omega : ¬(1704182400000 : Int) ≤ t),
      decide_eq_false (by decide : ¬(toString (civilFromDays 19723).1 ++ "-"
        ++ pad2 (civilFromDays 19723).2.1 ++ "-" ++ pad2 (civilFromDays 19723).2.2 = "2024-01-02"))]
    simp
  · have hfd := formatDateInZone_eq t (-480) 19724 hoff h
    have hbounds : 1704182400000 ≤ t ∧ t < 1704268800000 := by
      rw [ediv_eq_hdiv] at h
      simp only [msPerDay, msPerMinute] at h
      omega
    rw [hfd]
    rw [decide_eq_true (by omega : (1704182400000 : Int) ≤ t),
      decide_eq_true (by simp only [msPerDay]; omega : t < 1704182400000 + msPerDay),
      decide_eq_true (by decide : toString (civilFromDays 19724).1 ++ "-"
        ++ pad2 (civilFromDays 19724).2.1 ++ "-" ++ pad2 (civilFromDays 19724).2.2 = "2024-01-02")]
    simp
  · have hfd := formatDateInZone_eq t (-480) 19725 hoff h
    have hge : 1704268800000 ≤ t := by
      rw [ediv_eq_hdiv] at h
      simp only [msPerDay, msPerMinute] at h
      omega
    rw [hfd]
    rw [decide_eq_false (by simp only [msPerDay]; omega : ¬t < 1704182400000 + msPerDay),
      decide_eq_false (by decide : ¬(toString (civilFromDays 19725).1 ++ "-"
        ++ pad2 (civilFromDays 19725).2.1 ++ "-" ++ pad2 (civilFromDays 19725).2.2 = "2024-01-02"))]
    simp

/-! ### Lemmas about the aggregator -/

theorem sum_addIntoBucket (key : String) (r : UsageRecord) :
    ∀ (m : BucketMap), (m.map Prod.fst).Nodup → key ∈ m.map Prod.fst →
      sumBWh ((addIntoBucket m key r).map Prod.snd) =
        sumBWh (m.map Prod.snd) + r.importKWh := by
  intro m
  induction m with
  | nil =>
    intro _ hmem
    simp at hmem
  | cons p m ih =>
    intro hnd hmem
    simp only [List.map_cons, List.nodup_cons] at hnd
    rw [addIntoBucket]
    simp only [List.map_cons]
    by_cases hp : p.1 = key
    · rw [if_pos hp]
      have htail : (m.map fun p2 => if p2.1 = key then (p2.1, { p2.2 with importKWh := p2.2.importKWh + r.importKWh, sampleCount := p2.2.sampleCount + 1 }) else p2) = m := by
        have hcongr : ∀ p2 ∈ m, (if p2.1 = key then (p2.1, { p2.2 with importKWh := p2.2.importKWh + r.importKWh, sampleCount := p2.2.sampleCount + 1 }) else p2) = id p2 := by
          intro p2 hp2
          have hne : p2.1 ≠ key := by
            intro hk
            exact hnd.1 (by rw [hp, ← hk]; exact List.mem_map_of_mem Prod.fst hp2)
          simp [hne]
        rw [List.map_congr_left hcongr, List.map_id]
      rw [htail]
      simp only [List.map_cons, sumBWh, List.sum_cons]
      ring
    · rw [if_neg hp]
      have hmem2 : key ∈ m.map Prod.fst := by
        rw [List.map_cons] at hmem
        rcases List.mem_cons.mp hmem with h | h
        · exact absurd h.symm hp
        · exact h
      have hrec := ih hnd.2 hmem2
      rw [addIntoBucket] at hrec
      simp only [List.map_cons, sumBWh, List.sum_cons] at hrec ⊢
      rw [hrec]
      ring

theorem addIntoBucket_fst (m : BucketMap) (key : String) (r : UsageRecord) :
    (addIntoBucket m key r).map Prod.fst = m.map Prod.fst := by
  rw [addIntoBucket, List.map_map]
  apply List.map_congr_left
  intro p _
  by_cases hp : p.1 = key <;> simp [hp]

theorem ensure_key (m : BucketMap) (key : String) (act : Except JsRangeError Int)
    (bInit : Int → AggregateBucket) (h0 : ∀ ts, (bInit ts).importKWh = 0)
    (hnd : (m.map Prod.fst).Nodup) (m1 : BucketMap)
    (h : ensureBucket m key act bInit = .ok m1) :
    (m1.map Prod.fst).Nodup ∧ key ∈ m1.map Prod.fst ∧
      sumBWh (m1.map Prod.snd) = sumBWh (m.map Prod.snd) := by
  rw [ensureBucket] at h
  by_cases hmem : m.any (fun p => decide (p.1 = key)) = true
  · rw [if_pos hmem] at h
    cases Except.ok.inj h
    refine ⟨hnd, ?_, rfl⟩
    rcases List.any_eq_true.mp hmem with ⟨p, hp, hpk⟩
    have hk : p.1 = key := by simpa using hpk
    rw [← hk]
    exact List.mem_map_of_mem Prod.fst hp
  · rw [if_neg hmem] at h
    obtain ⟨ts, _, h2⟩ := except_bind_ok _ _ _ h
    cases Except.ok.inj h2
    refine ⟨?_, by simp, ?_⟩
    · rw [List.map_append]
      apply List.Nodup.append hnd (by simp)
      intro a ha hb
      simp only [List.map_cons, List.map_nil, List.mem_singleton] at hb
      subst hb
      rcases List.mem_map.mp ha with ⟨q, hq, hfst⟩
      exact hmem (List.any_eq_true.mpr ⟨q, hq, by simp [hfst]⟩)
    · simp [sumBWh, h0 ts]

theorem bucketStep_sum (g : String) (m : BucketMap) (r : UsageRecord)
    (hnd : (m.map Prod.fst).Nodup) (m2 : BucketMap)
    (hg : g = "hourly" ∨ g = "daily")
    (h : bucketStep g m r = .ok m2) :
    (m2.map Prod.fst).Nodup ∧
      sumBWh (m2.map Prod.snd) = sumBWh (m.map Prod.snd) + r.importKWh := by
  rcases hg with rfl | rfl
  · rw [bucketStep, if_pos rfl] at h
    obtain ⟨m1, h1, h2⟩ := except_bind_ok _ _ _ h
    obtain ⟨hnd1, hkey, hsum1⟩ := ensure_key m _ _ _ (fun _ => rfl) hnd m1 h1
    cases Except.ok.inj h2
    refine ⟨?_, ?_⟩
    · rw [addIntoBucket_fst]
      exact hnd1
    · rw [sum_addIntoBucket _ r m1 hnd1 hkey, hsum1]
  · rw [bucketStep, if_neg (by decide), if_pos rfl] at h
    obtain ⟨m1, h1, h2⟩ := except_bind_ok _ _ _ h
    obtain ⟨hnd1, hkey, hsum1⟩ := ensure_key m _ _ _ (fun _ => rfl) hnd m1 h1
    cases Except.ok.inj h2
    refine ⟨?_, ?_⟩
    · rw [addIntoBucket_fst]
      exact hnd1
    · rw [sum_addIntoBucket _ r m1 hnd1 hkey, hsum1]

theorem foldlM_bucket_sum (g : String) (hg : g = "hourly" ∨ g = "daily") :
    ∀ (records : List UsageRecord) (m : BucketMap),
      (m.map Prod.fst).Nodup → ∀ m2, records.foldlM (bucketStep g) m = .ok m2 →
      sumBWh (m2.map Prod.snd) = sumBWh (m.map Prod.snd) + sumKWh records := by
  intro records
  induction records with
  | nil =>
    intro m _ m2 h
    cases Except.ok.inj h
    simp [sumKWh]
  | cons r rs ih =>
    intro m hnd m2 h
    rw [List.foldlM_cons] at h
    obtain ⟨m1, h1, h2⟩ := except_bind_ok _ _ _ h
    obtain ⟨hnd1, hsum1⟩ := bucketStep_sum g m r hnd m1 hg h1
    have hrec := ih m1 hnd1 m2 h2
    rw [hrec, hsum1]
    simp only [sumKWh, List.map_cons, List.sum_cons]
    ring

/-- Claim C4: aggregation preserves total energy — for any record series,
the hourly bucket sums and the daily bucket sums both total exactly the
series' total `importKWh`, and `"15min"` aggregation returns the input
as-is. -/
theorem claim_C4 (records : List UsageRecord) :
    aggregate records "15min" = .ok (.raw records) ∧
    (∀ bs, aggregate records "hourly" = .ok (.bucketed bs) → sumBWh bs = sumKWh records) ∧
    (∀ bs, aggregate records "daily" = .ok (.bucketed bs) → sumBWh bs = sumKWh records) := by
  refine ⟨rfl, ?_, ?_⟩ <;> intro bs h <;>
    rw [aggregate, if_neg (by decide)] at h <;>
    obtain ⟨m, hm, h2⟩ := except_bind_ok _ _ _ h <;>
    [skip; skip] <;>
    first
    | (have hsort := AggregateResult.bucketed.inj (Except.ok.inj h2)
       rw [← hsort,
         show sumBWh (sortByKey AggregateBucket.timestamp (m.map Prod.snd))
             = sumBWh (m.map Prod.snd) from
           ((sortByKey_perm AggregateBucket.timestamp (m.map Prod.snd)).map
             AggregateBucket.importKWh).sum_eq]
       first
       | (rw [foldlM_bucket_sum "hourly" (Or.inl rfl) records [] (by simp) m hm]
          simp [sumBWh])
       | (rw [foldlM_bucket_sum "daily" (Or.inr rfl) records [] (by simp) m hm]
          simp [sumBWh]))

/-! ### Lemmas about the rolling average -/

theorem sumKWh_take_succ (records : List UsageRecord) (a n : Nat)
    (h : a + n < records.length) :
    sumKWh ((records.drop a).take (n + 1)) =
      sumKWh ((records.drop a).take n) + (records.getD (a + n) default).importKWh := by
  rw [List.take_succ]
  have hget : (records.drop a)[n]? = some (records.getD (a + n) default) := by
    rw [List.getElem?_drop, List.getElem?_eq_getElem (by omega), List.getD_eq_getElem _ _ (by omega)]
  rw [hget]
  simp [sumKWh]

theorem sumKWh_drop_head (records : List UsageRecord) (a n : Nat)
    (h : a < records.length) :
    sumKWh ((records.drop a).take (n + 1)) =
      (records.getD a default).importKWh + sumKWh ((records.drop (a + 1)).take n) := by
  rw [List.drop_eq_getElem_cons h, List.take_succ_cons]
  simp [sumKWh, List.getD, List.getD_eq_getElem _ _ h, List.getElem?_eq_getElem h]

theorem rollLoop_spec_aux (records : List UsageRecord) (w : Nat) (hw : 2 ≤ w) :
    ∀ (N i : Nat) (s : ℚ), records.length - i ≤ N →
      s = sumKWh ((records.drop (i - w)).take (i - (i - w))) →
      rollLoop records w i s =
        (List.range' (max i (w - 1)) (records.length - max i (w - 1))).map
          (fun p => { timestamp := (records.getD p default).timestamp,
                      avg := sumKWh ((records.drop (p + 1 - w)).take w) / (w : ℚ) }) := by
  intro N
  induction N with
  | zero =>
    intro i s hN _
    rw [rollLoop, dif_neg (by omega)]
    rw [show records.length - max i (w - 1) = 0 from by omega]
    simp
  | succ N ih =>
    intro i s hN hs
    by_cases h : i < records.length
    · rw [rollLoop, dif_pos h]
      dsimp only
      have hgetd : records.get ⟨i, h⟩ = records.getD i default := by
        rw [List.getD_eq_getElem _ _ h]
        rfl
      have hs1 : s + (records.get ⟨i, h⟩).importKWh =
          sumKWh ((records.drop (i - w)).take ((i - (i - w)) + 1)) := by
        rw [sumKWh_take_succ records (i - w) (i - (i - w)) (by omega),
          show (i - w) + (i - (i - w)) = i from by omega, hs, hgetd]
      have hs2 : (if w ≤ i then
            s + (records.get ⟨i, h⟩).importKWh -
              (records.getD (i - w) default).importKWh
          else s + (records.get ⟨i, h⟩).importKWh) =
          sumKWh ((records.drop (i + 1 - w)).take ((i + 1) - (i + 1 - w))) := by
        by_cases hwi : w ≤ i
        · rw [if_pos hwi, hs1,
            show (i - (i - w)) + 1 = w + 1 from by omega,
            sumKWh_drop_head records (i - w) w (by omega),
            show (i - w) + 1 = i + 1 - w from by omega,
            show (i + 1) - (i + 1 - w) = w from by omega]
          ring
        · rw [if_neg hwi, hs1,
            show i - w = 0 from by omega,
            show i + 1 - w = 0 from by omega,
            show (i - 0) + 1 = (i + 1) - 0 from by omega]
      rw [hs2]
      by_cases hemit : w - 1 ≤ i
      · rw [if_pos hemit]
        rw [ih (i + 1) _ (by omega) rfl]
        rw [show max (i + 1) (w - 1) = i + 1 from by omega,
          show max i (w - 1) = i from by omega,
          show records.length - i = (records.length - (i + 1)) + 1 from by omega,
          List.range'_succ]
        rw [List.map_cons]
        congr 1
        rw [hgetd, show (i + 1) - (i + 1 - w) = w from by omega]
      · rw [if_neg hemit]
        rw [ih (i + 1) _ (by omega) rfl]
        rw [show max (i + 1) (w - 1) = w - 1 from by omega,
          show max i (w - 1) = w - 1 from by omega]
    · rw [rollLoop, dif_neg h]
      rw [show records.length - max i (w - 1) = 0 from by omega]
      simp

theorem computeRollingAverage_spec (records : List UsageRecord) (w : Nat)
    (hne : records.length ≠ 0) (hw : 2 ≤ w) :
    computeRollingAverage records w =
      (List.range' (w - 1) (records.length - (w - 1))).map
        (fun p => { timestamp := (records.getD p default).timestamp,
                    avg := sumKWh ((records.drop (p + 1 - w)).take w) / (w : ℚ) }) := by
  rw [computeRollingAverage, if_neg (by omega)]
  rw [rollLoop_spec_aux records w hw (records.length) 0 0 (by omega) (by simp [sumKWh])]
  rw [show max 0 (w - 1) = w - 1 from by omega]

/-- Claim C4 witness: a one-record series aggregated hourly. -/
theorem claim_C4_witness :
    aggregate
        [{ timestamp := 1704182400000, date := "2024-01-02", startTime := "00:00",
           importKWh := 1, source := "f", synthetic := false }] "hourly" =
      .ok (.bucketed [{ timestamp := 1704182400000, date := "2024-01-02",
                        startTime := "00:00", importKWh := 0 + 1, sampleCount := 0 + 1 }]) ∧
    sumBWh [{ timestamp := 1704182400000, date := "2024-01-02",
              startTime := "00:00", importKWh := 0 + 1, sampleCount := 0 + 1 }] =
      sumKWh [{ timestamp := 1704182400000, date := "2024-01-02", startTime := "00:00",
                importKWh := 1, source := "f", synthetic := false }] :=
  ⟨rfl,
   (claim_C4
     [{ timestamp := 1704182400000, date := "2024-01-02", startTime := "00:00",
        importKWh := 1, source := "f", synthetic := false }]).2.1
     [{ timestamp := 1704182400000, date := "2024-01-02",
        startTime := "00:00", importKWh := 0 + 1, sampleCount := 0 + 1 }] rfl⟩

/-- Claim C8: the rolling-average engine returns empty for empty input or
`windowSize ≤ 1`; otherwise it emits no point for the first
`windowSize - 1` positions and, for each later position, one point whose
`avg` is the arithmetic mean of the trailing `windowSize` values; for the
series `[1,2,3,4,5]` with `windowSize = 3` it emits exactly the averages
`[2, 3, 4]`. -/
theorem claim_C8 (records : List UsageRecord) (w : Nat) :
    (records.length = 0 ∨ w ≤ 1 → computeRollingAverage records w = []) ∧
    (2 ≤ w → (computeRollingAverage records w).length = records.length - (w - 1)) ∧
    (2 ≤ w → ∀ j : Nat, j < records.length - (w - 1) →
      (computeRollingAverage records w).getD j default =
        { timestamp := (records.getD (j + (w - 1)) default).timestamp,
          avg := sumKWh ((records.drop j).take w) / (w : ℚ) }) ∧
    (computeRollingAverage
      [{ timestamp := 0, date := "d", startTime := "t", importKWh := 1,
         source := "s", synthetic := false },
       { timestamp := 900000, date := "d", startTime := "t", importKWh := 2,
         source := "s", synthetic := false },
       { timestamp := 1800000, date := "d", startTime := "t", importKWh := 3,
         source := "s", synthetic := false },
       { timestamp := 2700000, date := "d", startTime := "t", importKWh := 4,
         source := "s", synthetic := false },
       { timestamp := 3600000, date := "d", startTime := "t", importKWh := 5,
         source := "s", synthetic := false }] 3).map RollingAveragePoint.avg =
      [2, 3, 4] := by
  refine ⟨?_, ?_, ?_, ?_⟩
  · intro h
    rw [computeRollingAverage, if_pos h]
  · intro hw
    by_cases hne : records.length = 0
    · rw [computeRollingAverage, if_pos (Or.inl hne)]
      simp [hne]
    · rw [computeRollingAverage_spec records w hne hw]
      simp [List.length_range']
  · intro hw j hj
    have hne : records.length ≠ 0 := by omega
    rw [computeRollingAverage_spec records w hne hw]
    rw [List.getD_eq_getElem?_getD, List.getElem?_map]
    have hr : (List.range' (w - 1) (records.length - (w - 1)))[j]? = some (w - 1 + j) := by
      rw [List.getElem?_eq_getElem (by simp only [List.length_range']; omega)]
      simp [List.getElem_range']
    rw [hr]
    simp only [Option.map_some', Option.getD_some]
    have h1 : w - 1 + j = j + (w - 1) := by omega
    rw [h1]
    have h2 : j + (w - 1) + 1 - w = j := by omega
    rw [h2]
  · rw [computeRollingAverage_spec _ 3 (by decide) (by decide)]
    norm_num [List.range', sumKWh, List.getD]

/-- Claim C8 witness: window 1 on empty input yields no points; window 3 on a
three-record series yields one point, which averages all three values. -/
theorem claim_C8_witness :
    ((([] : List UsageRecord).length = 0 ∨ (1 : Nat) ≤ 1) ∧
      computeRollingAverage ([] : List UsageRecord) 1 = []) ∧
    ((2 : Nat) ≤ 3 ∧
      (computeRollingAverage ([⟨0, "d", "t", 1, "s", false⟩, ⟨900000, "d", "t", 2, "s", false⟩, ⟨1800000, "d", "t", 3, "s", false⟩] : List UsageRecord) 3).length = (([⟨0, "d", "t", 1, "s", false⟩, ⟨900000, "d", "t", 2, "s", false⟩, ⟨1800000, "d", "t", 3, "s", false⟩] : List UsageRecord)).length - (3 - 1)) ∧
    ((2 : Nat) ≤ 3 ∧ (0 : Nat) < (([⟨0, "d", "t", 1, "s", false⟩, ⟨900000, "d", "t", 2, "s", false⟩, ⟨1800000, "d", "t", 3, "s", false⟩] : List UsageRecord)).length - (3 - 1) ∧
      (computeRollingAverage ([⟨0, "d", "t", 1, "s", false⟩, ⟨900000, "d", "t", 2, "s", false⟩, ⟨1800000, "d", "t", 3, "s", false⟩] : List UsageRecord) 3).getD 0 default =
        (⟨((([⟨0, "d", "t", 1, "s", false⟩, ⟨900000, "d", "t", 2, "s", false⟩, ⟨1800000, "d", "t", 3, "s", false⟩] : List UsageRecord)).getD (0 + (3 - 1)) default).timestamp,
          sumKWh (((([⟨0, "d", "t", 1, "s", false⟩, ⟨900000, "d", "t", 2, "s", false⟩, ⟨1800000, "d", "t", 3, "s", false⟩] : List UsageRecord)).drop 0).take 3) / ((3 : Nat) : ℚ)⟩ : RollingAveragePoint)) :=
  ⟨⟨Or.inr (by decide), (claim_C8 ([] : List UsageRecord) 1).1 (Or.inr (by decide))⟩,
   ⟨by decide, (claim_C8 ([⟨0, "d", "t", 1, "s", false⟩, ⟨900000, "d", "t", 2, "s", false⟩, ⟨1800000, "d", "t", 3, "s", false⟩] : List UsageRecord) 3).2.1 (by decide)⟩,
   ⟨by decide, by decide, (claim_C8 ([⟨0, "d", "t", 1, "s", false⟩, ⟨900000, "d", "t", 2, "s", false⟩, ⟨1800000, "d", "t", 3, "s", false⟩] : List UsageRecord) 3).2.2.1 (by decide) 0 (by decide)⟩⟩

/-- Claim C3 counterexample: with `endStr = "2024-11-03"` (the fall-back
transition date) the exclusive bound is local midnight plus exactly 24
absolute hours — 07:00 UTC of Nov 4 — which falls one hour before local
midnight of Nov 4 (08:00 UTC), so a record at local 2024-11-03 23:30 is
dropped even though it belongs to the end date and lies strictly before
local midnight of the day after. -/
theorem claim_C3_counterexample :
    filterByRange
        [{ timestamp := 1730705400000, date := "2024-11-03", startTime := "23:30",
           importKWh := 1, source := "f", synthetic := false }]
        (some "2024-11-03") (some "2024-11-03") = .ok [] ∧
    zonedDateTimeToDate "2024-11-03" "00:00" = .ok 1730617200000 ∧
    (1730617200000 : Int) ≤ 1730705400000 ∧
    zonedDateTimeToDate "2024-11-04" "00:00" = .ok 1730707200000 ∧
    (1730705400000 : Int) < 1730707200000 ∧
    formatDateInZone 1730705400000 = "2024-11-03" :=
  ⟨by decide, by decide, by decide, by decide, by decide, by decide⟩

/-- Claim C3 amended: with both bounds supplied, `filterByRange` keeps
exactly the records with `midnight(start) ≤ t < midnight(end) + 86,400,000
ms`; the exclusive bound is the end date's local midnight plus exactly 24
absolute hours, which coincides with local midnight of the following day
except when a DST transition intervenes (then the end date's last local
hour is dropped, or the next day's first hour included).  With no bounds
it is the identity, and the 2024-01-02 example holds as stated since no
transition intervenes there. -/
theorem claim_C3_amended :
    (∀ (records : List UsageRecord) (s e : String) (sMs eMs : Int),
      s ≠ "" → e ≠ "" →
      zonedDateTimeToDate s "00:00" = .ok sMs →
      zonedDateTimeToDate e "00:00" = .ok eMs →
      filterByRange records (some s) (some e) =
        .ok (records.filter fun r =>
          decide (sMs ≤ r.timestamp) && decide (r.timestamp < eMs + msPerDay))) ∧
    (∀ l : List UsageRecord, filterByRange l none none = .ok l) ∧
    (∀ records : List UsageRecord,
      (∀ r ∈ records, 1704096000000 ≤ r.timestamp ∧ r.timestamp < 1704355200000) →
      filterByRange records (some "2024-01-02") (some "2024-01-02") =
        .ok (records.filter fun r => decide (formatDateInZone r.timestamp = "2024-01-02"))) := by
  refine ⟨filterByRange_some_some, filterByRange_none_none, ?_⟩
  intro records hmem
  rw [filterByRange_some_some records "2024-01-02" "2024-01-02" 1704182400000 1704182400000
    (by decide) (by decide) (by decide) (by decide)]
  congr 1
  apply List.filter_congr
  intro r hr
  exact jan_window_pred r.timestamp (hmem r hr).1 (hmem r hr).2

/-- Claim C3 witness: a single record at local midnight of 2024-01-02. -/
theorem claim_C3_witness :
    (("2024-01-02" : String) ≠ "" ∧
      zonedDateTimeToDate "2024-01-02" "00:00" = .ok 1704182400000) ∧
    filterByRange
        [{ timestamp := 1704182400000, date := "2024-01-02", startTime := "00:00",
           importKWh := 1, source := "f", synthetic := false }]
        (some "2024-01-02") (some "2024-01-02") =
      .ok ([{ timestamp := 1704182400000, date := "2024-01-02", startTime := "00:00",
              importKWh := 1, source := "f", synthetic := false }].filter fun r =>
        decide ((1704182400000 : Int) ≤ r.timestamp) &&
          decide (r.timestamp < 1704182400000 + msPerDay)) ∧
    filterByRange
        [{ timestamp := 1704182400000, date := "2024-01-02", startTime := "00:00",
           importKWh := 1, source := "f", synthetic := false }] none none =
      .ok [{ timestamp := 1704182400000, date := "2024-01-02", startTime := "00:00",
             importKWh := 1, source := "f", synthetic := false }] ∧
    filterByRange
        [{ timestamp := 1704182400000, date := "2024-01-02", startTime := "00:00",
           importKWh := 1, source := "f", synthetic := false }]
        (some "2024-01-02") (some "2024-01-02") =
      .ok ([{ timestamp := 1704182400000, date := "2024-01-02", startTime := "00:00",
              importKWh := 1, source := "f", synthetic := false }].filter fun r =>
        decide (formatDateInZone r.timestamp = "2024-01-02")) :=
  ⟨⟨by decide, by decide⟩,
   claim_C3_amended.1
     [{ timestamp := 1704182400000, date := "2024-01-02", startTime := "00:00",
        importKWh := 1, source := "f", synthetic := false }]
     "2024-01-02" "2024-01-02" 1704182400000 1704182400000
     (by decide) (by decide) (by decide) (by decide),
   claim_C3_amended.2.1
     [{ timestamp := 1704182400000, date := "2024-01-02", startTime := "00:00",
        importKWh := 1, source := "f", synthetic := false }],
   claim_C3_amended.2.2
     [{ timestamp := 1704182400000, date := "2024-01-02", startTime := "00:00",
        importKWh := 1, source := "f", synthetic := false }]
     (by decide)⟩

/-- Claim C9 counterexample: a numeric but negative energy field passes
straight through the parser — the resulting record carries a negative
`importKWh`, so the non-negativity invariant does not hold. -/
theorem claim_C9_counterexample :
    parseUsageRows
        [{ dateField := some "2024-01-02", startTimeField := some "00:00",
           importField := some "-1" }] "f" =
      .ok [{ timestamp := 1704182400000, date := "2024-01-02", startTime := "00:00",
             importKWh := -1, source := "f", synthetic := false }] ∧
    (-1 : ℚ) < 0 := by
  exact ⟨by decide, by decide⟩

/-- Claim C9 amended: every parsed record's `importKWh` is exactly the
`parseFloat`-with-finiteness-guard conversion of its row's energy field,
which is 0 whenever the field is missing, non-numeric or non-finite — but a
negative numeric value is carried through unchanged, so parsed records are
not guaranteed non-negative. -/
theorem claim_C9_amended (rows : List CsvRow) (source : String) (out : List UsageRecord)
    (h : parseUsageRows rows source = .ok out) :
    (∀ r ∈ out, ∃ row ∈ rows, row.dateField = some r.date ∧
      row.startTimeField = some r.startTime ∧ r.importKWh = importValueOf row ∧
      r.synthetic = false) ∧
    (∀ row : CsvRow, row.importField.bind jsParseFloatQ? = none → importValueOf row = 0) := by
  constructor
  · intro r hr
    rw [parseUsageRows] at h
    obtain ⟨parsed, hmap, h2⟩ := except_bind_ok _ _ _ h
    have hout : out = sortByKey UsageRecord.timestamp (parsed.filterMap id) :=
      (Except.ok.inj h2).symm
    subst hout
    have hr2 : r ∈ parsed.filterMap id :=
      (sortByKey_perm UsageRecord.timestamp _).mem_iff.mp hr
    rcases List.mem_filterMap.mp hr2 with ⟨o, ho, hoid⟩
    have hsome : o = some r := by simpa using hoid
    subst hsome
    obtain ⟨row, hrow, hpr⟩ := forall2_mem (mapM_ok_forall2 _ rows parsed hmap) (some r) ho
    obtain ⟨d, st, ts, hdf, hstf, _, hreq⟩ := parseRow_ok_some source row r hpr
    subst hreq
    exact ⟨row, hrow, by simpa using hdf, by simpa using hstf, rfl, rfl⟩
  · intro row h0
    rw [importValueOf, h0]

/-- Claim C9 witness: a concrete one-row parse. -/
theorem claim_C9_witness :
    parseUsageRows
        [{ dateField := some "2024-01-02", startTimeField := some "00:00",
           importField := some "1.5" }] "f" =
      .ok [{ timestamp := 1704182400000, date := "2024-01-02", startTime := "00:00",
             importKWh := mkRat 3 2, source := "f", synthetic := false }] ∧
    ((∀ r ∈ [({ timestamp := 1704182400000, date := "2024-01-02", startTime := "00:00",
                importKWh := mkRat 3 2, source := "f", synthetic := false } : UsageRecord)],
      ∃ row ∈ [({ dateField := some "2024-01-02", startTimeField := some "00:00",
                  importField := some "1.5" } : CsvRow)],
        row.dateField = some r.date ∧ row.startTimeField = some r.startTime ∧
        r.importKWh = importValueOf row ∧ r.synthetic = false) ∧
    (∀ row : CsvRow, row.importField.bind jsParseFloatQ? = none → importValueOf row = 0)) :=
  ⟨by decide,
   claim_C9_amended
     [{ dateField := some "2024-01-02", startTimeField := some "00:00",
        importField := some "1.5" }] "f"
     [{ timestamp := 1704182400000, date := "2024-01-02", startTime := "00:00",
        importKWh := mkRat 3 2, source := "f", synthetic := false }] (by decide)⟩

/-- Claim C2 counterexample: an out-of-range month does not fail — month 13
of 2024 rolls over to January 2025 and resolution returns that instant. -/
theorem claim_C2_counterexample :
    zonedDateTimeToDate "2024-13-01" "00:00" = .ok 1735718400000 ∧
    ∀ e : JsRangeError, zonedDateTimeToDate "2024-13-01" "00:00" ≠ .error e := by
  refine ⟨by decide, ?_⟩
  intro e h
  rw [show zonedDateTimeToDate "2024-13-01" "00:00" = .ok 1735718400000 from by decide] at h
  exact Except.noConfusion h

/-- Claim C2 amended: timestamp resolution fails (with the `RangeError`
`formatToParts` raises on an Invalid Date) exactly when a used date/time
component is NaN under `Number` — e.g. missing or alphabetic — and one such
row makes the whole `parseUsageRows` call fail, not just the affected row;
numeric out-of-range month/day/hour/minute values do not fail:
`Date.UTC` rolls them over into a valid instant. -/
theorem claim_C2_amended :
    (∀ dateStr timeStr : String,
      (((jsSplit dateStr '-').get? 0).bind jsNumberInt? = none ∨
       ((jsSplit dateStr '-').get? 1).bind jsNumberInt? = none ∨
       ((jsSplit dateStr '-').get? 2).bind jsNumberInt? = none ∨
       ((jsSplit timeStr ':').get? 0).bind jsNumberInt? = none ∨
       ((jsSplit timeStr ':').get? 1).bind jsNumberInt? = none) →
      zonedDateTimeToDate dateStr timeStr = .error .invalidTime) ∧
    jsNumberInt? "abcd" = none ∧
    zonedDateTimeToDate "abcd-01-01" "00:00" = .error .invalidTime ∧
    zonedDateTimeToDate "2024-01" "00:00" = .error .invalidTime ∧
    zonedDateTimeToDate "2024-13-01" "00:00" = .ok 1735718400000 ∧
    (∀ (rows : List CsvRow) (source : String),
      (∃ row ∈ rows, ∃ d st : String, row.dateField = some d ∧
        row.startTimeField = some st ∧ ¬(d = "" ∨ st = "") ∧
        zonedDateTimeToDate d st = .error .invalidTime) →
      ∃ e, parseUsageRows rows source = .error e) := by
  refine ⟨?_, by decide, by decide, by decide, by decide, ?_⟩
  · intro ds ts h
    simp only [zonedDateTimeToDate]
    rcases h1 : ((jsSplit ds '-').get? 0).bind jsNumberInt? with _ | v1 <;>
      rcases h2 : ((jsSplit ds '-').get? 1).bind jsNumberInt? with _ | v2 <;>
        rcases h3 : ((jsSplit ds '-').get? 2).bind jsNumberInt? with _ | v3 <;>
          rcases h4 : ((jsSplit ts ':').get? 0).bind jsNumberInt? with _ | v4 <;>
            rcases h5 : ((jsSplit ts ':').get? 1).bind jsNumberInt? with _ | v5 <;>
              first
              | rfl
              | (exfalso
                 rcases h with h | h | h | h | h
                 · rw [h] at h1
                   exact Option.noConfusion h1
                 · rw [h] at h2
                   exact Option.noConfusion h2
                 · rw [h] at h3
                   exact Option.noConfusion h3
                 · rw [h] at h4
                   exact Option.noConfusion h4
                 · rw [h] at h5
                   exact Option.noConfusion h5)
  · rintro rows source ⟨row, hmem, d, st, hdf, hstf, hne, herr⟩
    have hrow : ∃ e, parseRow source row = .error e := by
      refine ⟨.invalidTime, ?_⟩
      rcases row with ⟨df, stf, imf⟩
      dsimp only at hdf hstf
      subst hdf
      subst hstf
      rw [parseRow]
      dsimp only
      rw [if_neg hne, herr]
      rfl
    obtain ⟨e, he⟩ := mapM_error_of_mem source rows ⟨row, hmem, hrow⟩
    refine ⟨e, ?_⟩
    rw [parseUsageRows]
    rw [he]
    rfl

/-- Claim C2 witness: an alphabetic date component at a concrete input. -/
theorem claim_C2_witness :
    (((jsSplit "abcd-01-01" '-').get? 0).bind jsNumberInt? = none) ∧
    zonedDateTimeToDate "abcd-01-01" "00:00" = .error .invalidTime ∧
    (∃ e, parseUsageRows
      [{ dateField := some "abcd-01-01", startTimeField := some "00:00", importField := none }]
      "f" = .error e) :=
  ⟨by decide,
   claim_C2_amended.1 "abcd-01-01" "00:00" (Or.inl (by decide)),
   claim_C2_amended.2.2.2.2.2
     [{ dateField := some "abcd-01-01", startTimeField := some "00:00", importField := none }] "f"
     ⟨{ dateField := some "abcd-01-01", startTimeField := some "00:00", importField := none },
      by simp, "abcd-01-01", "00:00", rfl, rfl, by simp, by decide⟩⟩

/-- Claim C1 counterexample: on the 2024 spring-forward date the record
labelled 01:45 resolves to 09:45 UTC but the record labelled 03:00 resolves
to 11:00 UTC (the offset is sampled at the pre-transition naive guess), so
the absolute gap is 75 minutes, not 15, and the gap filler inserts 4
synthetic records between the two, not 0. -/
theorem claim_C1_counterexample :
    zonedDateTimeToDate "2024-03-10" "01:45" = .ok 1710063900000 ∧
    zonedDateTimeToDate "2024-03-10" "03:00" = .ok 1710068400000 ∧
    (1710068400000 - 1710063900000 : Int) = 75 * msPerMinute ∧
    (fillMissingIntervals
        [{ timestamp := 1710063900000, date := "2024-03-10", startTime := "01:45",
           importKWh := 1, source := "usage.csv", synthetic := false },
         { timestamp := 1710068400000, date := "2024-03-10", startTime := "03:00",
           importKWh := 1, source := "usage.csv", synthetic := false }]).countP
      (fun r => r.synthetic) = 4 := by
  refine ⟨by decide, by decide, by decide, ?_⟩
  rw [fillMissingIntervals_pair _ _ 4 (by decide)]
  decide

/-- Claim C1 amended: the resolver's one-pass offset correction samples the
zone offset at the naive pre-transition guess, so on the spring-forward
date local 03:00 resolves one hour late (11:00 UTC, local 04:00); the
75-minute absolute gap makes the filler insert exactly 4 synthetic records,
labelled local 03:00–03:45. -/
theorem claim_C1_amended :
    zonedDateTimeToDate "2024-03-10" "01:45" = .ok 1710063900000 ∧
    zonedDateTimeToDate "2024-03-10" "03:00" = .ok 1710068400000 ∧
    formatTimeInZone 1710068400000 = "04:00" ∧
    fillMissingIntervals
        [{ timestamp := 1710063900000, date := "2024-03-10", startTime := "01:45",
           importKWh := 1, source := "usage.csv", synthetic := false },
         { timestamp := 1710068400000, date := "2024-03-10", startTime := "03:00",
           importKWh := 1, source := "usage.csv", synthetic := false }] =
      [{ timestamp := 1710063900000, date := "2024-03-10", startTime := "01:45",
         importKWh := 1, source := "usage.csv", synthetic := false },
       { timestamp := 1710064800000, date := "2024-03-10", startTime := "03:00",
         importKWh := 0, source := "synthetic-gap-fill", synthetic := true },
       { timestamp := 1710065700000, date := "2024-03-10", startTime := "03:15",
         importKWh := 0, source := "synthetic-gap-fill", synthetic := true },
       { timestamp := 1710066600000, date := "2024-03-10", startTime := "03:30",
         importKWh := 0, source := "synthetic-gap-fill", synthetic := true },
       { timestamp := 1710067500000, date := "2024-03-10", startTime := "03:45",
         importKWh := 0, source := "synthetic-gap-fill", synthetic := true },
       { timestamp := 1710068400000, date := "2024-03-10", startTime := "03:00",
         importKWh := 1, source := "usage.csv", synthetic := false }] := by
  refine ⟨by decide, by decide, by decide, ?_⟩
  rw [fillMissingIntervals_pair _ _ 4 (by decide)]
  decide

/-- Claim C5 witness: two concrete one-record series sharing an instant. -/
theorem claim_C5_witness :
    (mergeSeries [[{ timestamp := 1704182400000, date := "2024-01-02", startTime := "00:00",
                     importKWh := 1, source := "a.csv", synthetic := false }],
                  [{ timestamp := 1704182400000, date := "2024-01-02", startTime := "00:00",
                     importKWh := 2, source := "b.csv", synthetic := false }]]).filter
        (fun x => decide (x.timestamp = 1704182400000)) =
      [{ timestamp := 1704182400000, date := "2024-01-02", startTime := "00:00",
         importKWh := 2, source := "b.csv", synthetic := false }] ∧
    (mergeSeries [[{ timestamp := 1704182400000, date := "2024-01-02", startTime := "00:00",
                     importKWh := 2, source := "b.csv", synthetic := false }],
                  [{ timestamp := 1704182400000, date := "2024-01-02", startTime := "00:00",
                     importKWh := 1, source := "a.csv", synthetic := false }]]).filter
        (fun x => decide (x.timestamp = 1704182400000)) =
      [{ timestamp := 1704182400000, date := "2024-01-02", startTime := "00:00",
         importKWh := 1, source := "a.csv", synthetic := false }] :=
  claim_C5 _ _ 1704182400000 _ _ (by simp) (by simp) rfl rfl
    (by intro x hx _; simpa using hx) (by intro x hx _; simpa using hx)

end ElecUsage
